import Mathlib

/-!
Verification development for the fetch-validate-retry-normalize-persist
pipeline of the FondosdePensiones repository.

The Python modules `io_utils.py`, `cuadros_utils.py`, `html_utils.py` and
`precios_if.py` are shallowly embedded below.  Pure string manipulation is
translated directly to functions on `List Char`; external collaborators
(the HTTP session, `pandas.read_html`, the float parser of
`pandas.to_numeric`, the parser/serializer of BeautifulSoup,
`html.unescape`, `unicodedata.normalize`
and the filesystem) are modelled as oracle parameters, so every theorem
quantifies over their behaviour.  Character classes (`\d`, `\w`, `\s`) are
modelled over their ASCII meaning, which is exact for all inputs the
claims mention.
-/

/-! ## Character classes (ASCII model of Python `\d`, `\w`, `\s`, `str.lower`) -/

def esDigito (c : Char) : Bool :=
  48 ≤ c.toNat && c.toNat ≤ 57

def esPalabra (c : Char) : Bool :=
  esDigito c || (65 ≤ c.toNat && c.toNat ≤ 90) ||
    (97 ≤ c.toNat && c.toNat ≤ 122) || c.toNat == 95

def esPyEspacio (c : Char) : Bool :=
  c.toNat == 32 || (9 ≤ c.toNat && c.toNat ≤ 13)

/-- Model of Python `str.lower` on one character (ASCII range). -/
def pyLower (c : Char) : Char :=
  if 65 ≤ c.toNat ∧ c.toNat ≤ 90 then Char.ofNat (c.toNat + 32) else c

/-- Model of Python `str.strip()` (default whitespace strip, both ends). -/
def pyStrip (s : List Char) : List Char :=
  ((s.dropWhile esPyEspacio).reverse.dropWhile esPyEspacio).reverse

/-- Model of Python `str.strip(ch)` for a single character `ch`. -/
def pyStripChar (ch : Char) (s : List Char) : List Char :=
  ((s.dropWhile (fun c => c == ch)).reverse.dropWhile (fun c => c == ch)).reverse

/-- Does `p` occur at the start of `s`? -/
def empiezaCon : List Char → List Char → Bool
  | [], _ => true
  | _ :: _, [] => false
  | p :: ps, c :: cs => p == c && empiezaCon ps cs

/-- Does `p` occur as a contiguous substring of `s`? (Python `p in s`.) -/
def contieneSub (p : List Char) : List Char → Bool
  | [] => empiezaCon p []
  | c :: cs => empiezaCon p (c :: cs) || contieneSub p cs

/-! ## The Chilean-number regex of `io_utils.py`

`_RE_CH_NUM = \b\d{1,3}(?:\.\d{3})*(?:,\d+)?\b|\b\d+(?:,\d+)\b|\b\d+\b`

The backtracking search of Python's `re` engine is embedded directly: for
each alternative we enumerate, in the engine's priority order (greedy
quantifiers try longer matches first, alternatives left to right), every
candidate match length, and `re.sub` takes the first candidate whose
trailing word boundary holds.  All alternatives start with `\b` followed
by a digit and end with `\b` after a digit, which the functions below use.
-/

/-- Length of the maximal digit run at the head of `s` (what `\d+` can see). -/
def digitRun : List Char → Nat
  | [] => 0
  | c :: r => if esDigito c = true then digitRun r + 1 else 0

/-- Maximal number of repetitions of `\.\d{3}` at the head of `s`. -/
def starReps : List Char → Nat
  | c :: x :: y :: z :: r =>
    if c = '.' ∧ esDigito x = true ∧ esDigito y = true ∧ esDigito z = true
    then starReps r + 1 else 0
  | _ => 0

/-- `[n, n-1, ..., 1]`: the lengths a greedy counted quantifier tries. -/
def downFrom : Nat → List Nat
  | 0 => []
  | n + 1 => (n + 1) :: downFrom n

/-- `[n, n-1, ..., 0]`: the repetition counts a greedy star tries. -/
def downTo0 : Nat → List Nat
  | 0 => [0]
  | n + 1 => (n + 1) :: downTo0 n

/-- Candidate lengths, in priority order, for the optional `(?:,\d+)?`. -/
def commaCands : List Char → List Nat
  | ',' :: t => ((downFrom (digitRun t)).map (fun i => 1 + i)) ++ [0]
  | _ => [0]

/-- Candidate match lengths of `\d{1,3}(?:\.\d{3})*(?:,\d+)?`, priority order. -/
def alt1Cands (s : List Char) : List Nat :=
  (downFrom (min 3 (digitRun s))).flatMap (fun k =>
    (downTo0 (starReps (s.drop k))).flatMap (fun j =>
      (commaCands (s.drop (k + 4 * j))).map (fun e => k + 4 * j + e)))

/-- Candidate match lengths of `\d+(?:,\d+)`, priority order. -/
def alt2Cands (s : List Char) : List Nat :=
  (downFrom (digitRun s)).flatMap (fun k =>
    match s.drop k with
    | ',' :: t => (downFrom (digitRun t)).map (fun p => k + 1 + p)
    | _ => [])

/-- Candidate match lengths of `\d+`, priority order. -/
def alt3Cands (s : List Char) : List Nat :=
  downFrom (digitRun s)

/-- The `\b` after the final digit of a match: next char must not be `\w`. -/
def endBoundary : List Char → Bool
  | [] => true
  | c :: _ => !(esPalabra c)

/-- The `\b` before the first digit: previous char must not be `\w`. -/
def boundaryOk : Option Char → Bool
  | none => true
  | some c => !(esPalabra c)

/-- Length of the match `_RE_CH_NUM` produces at this position, if any.
`prev` is the character immediately before the position (`none` at the
start of the string). -/
def pyMatch (prev : Option Char) (s : List Char) : Option Nat :=
  if boundaryOk prev = true then
    (alt1Cands s ++ alt2Cands s ++ alt3Cands s).find?
      (fun n => endBoundary (s.drop n))
  else none

/-- `_to_float_token`: strip, drop every `'.'`, then turn `','` into `'.'`. -/
def toFloatToken (t : List Char) : List Char :=
  ((pyStrip t).filter (fun c => c != '.')).map (fun c => if c = ',' then '.' else c)

/-- The scan of `re.sub`: at each position try `pyMatch`; on a match emit
the rewritten token and resume after it, otherwise copy one character.
(The pattern can never match the empty string — every alternative needs at
least one digit — so the `some 0` case is dead; it is mapped to the
no-match behaviour to make termination structural.) -/
def subNums : Option Char → List Char → List Char
  | _, [] => []
  | prev, c :: rest =>
    match pyMatch prev (c :: rest) with
    | some (n + 1) =>
      let tok := (c :: rest).take (n + 1)
      toFloatToken tok ++ subNums (some (tok.getLastD c)) ((c :: rest).drop (n + 1))
    | _ => c :: subNums (some c) rest
termination_by prev s => s.length
decreasing_by
  all_goals simp [List.length_drop]
  all_goals omega

/-- `_transformar_solo_numeros_en_texto`. -/
def transformarSoloNumerosEnTexto (s : List Char) : List Char :=
  subNums none s

/-! ## HTML documents after parsing

`_html_transformar_solo_numeros` walks the BeautifulSoup tree and rewrites
only text nodes (skipping text whose direct parent is `script` or `style`
and whitespace-only text).  BeautifulSoup's parser and serializer are
external; the document is embedded post-parse as a tree of elements (tag,
attributes, children) and text nodes. -/

mutual
inductive HNode where
  | texto : List Char → HNode
  | elem : List Char → List (List Char × List Char) → HForest → HNode

inductive HForest where
  | nil : HForest
  | cons : HNode → HForest → HForest
end

/-! The per-text-node rewrite of `_html_transformar_solo_numeros`:
skip under `script`/`style` parents, skip whitespace-only text,
otherwise apply `_transformar_solo_numeros_en_texto`.  (The guard
`if nuevo != original` of the source only avoids a no-op tree edit.) -/
mutual
def transformarNodo (parent : Option (List Char)) : HNode → HNode
  | HNode.texto s =>
    if parent = some ("script".toList) ∨ parent = some ("style".toList) then
      HNode.texto s
    else if pyStrip s = [] then
      HNode.texto s
    else
      HNode.texto (transformarSoloNumerosEnTexto s)
  | HNode.elem tag attrs hijos => HNode.elem tag attrs (transformarNodos (some tag) hijos)

def transformarNodos (parent : Option (List Char)) : HForest → HForest
  | HForest.nil => HForest.nil
  | HForest.cons n ns => HForest.cons (transformarNodo parent n) (transformarNodos parent ns)
end

/-! Erase all character data, keeping the markup skeleton (tags, attributes,
structure) — used to state that the transform only touches text nodes. -/
mutual
def sinTextos : HNode → HNode
  | HNode.texto _ => HNode.texto []
  | HNode.elem tag attrs hijos => HNode.elem tag attrs (sinTextosF hijos)

def sinTextosF : HForest → HForest
  | HForest.nil => HForest.nil
  | HForest.cons n ns => HForest.cons (sinTextos n) (sinTextosF ns)
end

/-! All attribute pairs of a document, in document order. -/
mutual
def atributos : HNode → List (List Char × List Char)
  | HNode.texto _ => []
  | HNode.elem _ attrs hijos => attrs ++ atributosF hijos

def atributosF : HForest → List (List Char × List Char)
  | HForest.nil => []
  | HForest.cons n ns => atributos n ++ atributosF ns
end

/-! All tag names of a document, in document order. -/
mutual
def etiquetas : HNode → List (List Char)
  | HNode.texto _ => []
  | HNode.elem tag _ hijos => tag :: etiquetasF hijos

def etiquetasF : HForest → List (List Char)
  | HForest.nil => []
  | HForest.cons n ns => etiquetas n ++ etiquetasF ns
end

/-! ## `cuadros_utils._html_es_valido` -/

/-- The structural validator: non-None/non-empty, at least 500 characters,
contains `<table` and `<tr` in the lowercased text. -/
def htmlEsValido (html : List Char) : Bool :=
  if html.isEmpty then false
  else if html.length < 500 then false
  else
    if contieneSub ("<table".toList) (html.map pyLower) = false then false
    else if contieneSub ("<tr".toList) (html.map pyLower) = false then false
    else true

/-- The post-decode cleanup of `descargar_y_guardar_cuadros`:
`.replace("\xa0", " ").replace("Â", "")`. -/
def limpiarHtml (s : List Char) : List Char :=
  (s.map (fun c => if c = '\xA0' then ' ' else c)).filter (fun c => c != 'Â')

/-! ## Tables, `pd.to_numeric(..., errors="coerce")` and the CSV grid

`pd.read_html` is external: it is an oracle producing a grid of string
cells.  `guardar_html_y_csv` then converts every column except the first
with `pd.to_numeric(errors="coerce")`; the float parser inside
`to_numeric` is an oracle `parse`, and an unparseable cell becomes the
missing-value marker `NaN` (`Cell.falta`) instead of raising. -/

abbrev RawTable := List (List (List Char))

inductive Cell where
  | texto : List Char → Cell
  | num : ℚ → Cell
  | falta : Cell
deriving DecidableEq

/-- One cell under `pd.to_numeric(errors="coerce")`. -/
def coerceCell (parse : List Char → Option ℚ) (s : List Char) : Cell :=
  match parse s with
  | some q => Cell.num q
  | none => Cell.falta

/-- One row of the DataFrame after the column loop
`for col in df.columns[1:]: df[col] = pd.to_numeric(df[col], errors="coerce")`:
on the rectangular grid this converts every cell except the first of each
row and leaves the first column as text. -/
def coerceRow (parse : List Char → Option ℚ) : List (List Char) → List Cell
  | [] => []
  | c0 :: resto => Cell.texto c0 :: resto.map (fun s => coerceCell parse s)

/-- The typed grid written by `df.to_csv`. -/
def procesarTabla (parse : List Char → Option ℚ) (t : List (List (List Char))) :
    List (List Cell) :=
  t.map (coerceRow parse)

/-! ## `io_utils.guardar_html_y_csv`

The filesystem is an oracle saying which `os.makedirs`/`open(...).write`
calls succeed.  The run of the function is a list of events plus a flag
telling whether an exception escaped it.  Mirroring the source: the two
`makedirs` and the raw-HTML write happen **before** the `try:` block, so
their failures escape; everything from the numeric transform to `to_csv`
sits inside the `try:` whose `except` logs `Error crítico al procesar
tabla`. -/

structure FsOracle where
  mkdirOk : List Char → Bool
  writeOk : List Char → Bool

inductive Ev where
  | mkdirEv : List Char → Ev
  | wroteHtml : List Char → List Char → Ev
  | warnNoTables : List Char → Ev
  | wroteCsv : List Char → List (List Cell) → Ev
  | logErrorTabla : List Char → Ev
  | logDebug : List Char → Nat → Nat → Ev
  | logInfo : Nat → Nat → Ev
  | getAttempt : Nat → Nat → Ev
  | warnErr : Nat → Nat → Ev
  | warnInvalid : Nat → Nat → Ev
  | sleepEv : Ev
  | errorOmitido : Nat → Ev
deriving DecidableEq

/-- `os.path.join(dir, f"{nombre}{ext}")`. -/
def rutaArchivo (dir nombre ext : List Char) : List Char :=
  dir ++ '/' :: (nombre ++ ext)

def guardarHtmlYCsv (fs : FsOracle) (parse : List Char → Option ℚ)
    (parseHtml : List Char → HNode) (serialize : HNode → List Char)
    (readHtml2 readHtml1 : List Char → Option (List RawTable))
    (html nombre htmlDir csvDir : List Char) : List Ev × Bool :=
  if fs.mkdirOk htmlDir = false then ([], true)
  else if fs.mkdirOk csvDir = false then ([Ev.mkdirEv htmlDir], true)
  else if fs.writeOk (rutaArchivo htmlDir nombre (".html".toList)) = false then
    ([Ev.mkdirEv htmlDir, Ev.mkdirEv csvDir], true)
  else
    match (match readHtml2 (serialize (transformarNodo none (parseHtml html))) with
           | some ts => some ts
           | none => readHtml1 (serialize (transformarNodo none (parseHtml html)))) with
    | none =>
      ([Ev.mkdirEv htmlDir, Ev.mkdirEv csvDir,
        Ev.wroteHtml (rutaArchivo htmlDir nombre (".html".toList)) html,
        Ev.logErrorTabla nombre], false)
    | some [] =>
      ([Ev.mkdirEv htmlDir, Ev.mkdirEv csvDir,
        Ev.wroteHtml (rutaArchivo htmlDir nombre (".html".toList)) html,
        Ev.warnNoTables nombre], false)
    | some (t :: _) =>
      if fs.writeOk (rutaArchivo csvDir nombre (".csv".toList)) = false then
        ([Ev.mkdirEv htmlDir, Ev.mkdirEv csvDir,
          Ev.wroteHtml (rutaArchivo htmlDir nombre (".html".toList)) html,
          Ev.logErrorTabla nombre], false)
      else
        ([Ev.mkdirEv htmlDir, Ev.mkdirEv csvDir,
          Ev.wroteHtml (rutaArchivo htmlDir nombre (".html".toList)) html,
          Ev.wroteCsv (rutaArchivo csvDir nombre (".csv".toList)) (procesarTabla parse t),
          Ev.logDebug nombre (procesarTabla parse t).length
            (((procesarTabla parse t).head?.getD []).length)], false)

/-! ## `html_utils.limpiar_nombre` and the positional fallback name

`html.unescape` and `unicodedata.normalize("NFKD", ...)` are external
string-to-string functions, passed as oracles; `encode("ascii","ignore")`
keeps exactly the ASCII characters; the three `re.sub` passes are embedded
as one-pass scanners mirroring `\s+ -> _` and `_+ -> _`. -/

/-- `re.sub(r"\s+", "_", s)`: each maximal whitespace run becomes one `'_'`.
The flag records whether the previous character was part of a run. -/
def espaciosAGuion (enRun : Bool) : List Char → List Char
  | [] => []
  | c :: r =>
    if esPyEspacio c = true then
      if enRun then espaciosAGuion true r else '_' :: espaciosAGuion true r
    else c :: espaciosAGuion false r

/-- `re.sub(r"_+", "_", s)`: each maximal `'_'` run becomes one `'_'`. -/
def colapsaGuiones (enRun : Bool) : List Char → List Char
  | [] => []
  | c :: r =>
    if c = '_' then
      if enRun then colapsaGuiones true r else '_' :: colapsaGuiones true r
    else c :: colapsaGuiones false r

def limpiarNombre (unescape nfkd : List Char → List Char) (texto : List Char) : List Char :=
  let t1 := pyStrip (unescape texto)
  let t2 := nfkd t1
  let t3 := t2.filter (fun c => c.toNat < 128)
  let t4 := t3.filter (fun c => esPalabra c || esPyEspacio c || c == '-')
  let t5 := espaciosAGuion false t4
  let t6 := colapsaGuiones false t5
  pyStripChar '_' ((t6.map pyLower).take 180)

/-- Python `f"{i:02d}"`. -/
def pad2 (i : Nat) : List Char :=
  if i < 10 then '0' :: Nat.toDigits 10 i else Nat.toDigits 10 i

/-- The positional fallback `f"cuadro_{i:02d}"`. -/
def nombreFallback (i : Nat) : List Char :=
  "cuadro_".toList ++ pad2 i

/-! ## `cuadros_utils.descargar_y_guardar_cuadros`

The HTTP session, `decode_html` and `extraer_titulo` are external: the
oracle `fetch i intento` is the decoded text of the response for the
`i`-th link at try number `intento` (`none` when `session.get`,
`raise_for_status` or the decode raises); `titulo` is the text of the
first `<h3>` of a page, when one exists. -/

structure Orac where
  fetch : Nat → Nat → Option (List Char)
  titulo : List Char → Option (List Char)
  unescape : List Char → List Char
  nfkd : List Char → List Char
  parse : List Char → Option ℚ
  parseHtml : List Char → HNode
  serialize : HNode → List Char
  readHtml2 : List Char → Option (List RawTable)
  readHtml1 : List Char → Option (List RawTable)
  fs : FsOracle
  htmlDir : List Char
  csvDir : List Char

/-- The retry loop body `for intento in range(1, MAX_REINTENTOS + 1)` for
one link: `ts` is the list of try numbers still to run.  A transport
error logs a warning and sleeps; an invalid payload logs a warning and
sleeps; a valid payload breaks out immediately (no sleep). -/
def intentosList (fi : Nat → Option (List Char)) (i : Nat) :
    List Nat → List Ev × Option (List Char)
  | [] => ([], none)
  | t :: resto =>
    match fi t with
    | none =>
      let r := intentosList fi i resto
      (Ev.getAttempt i t :: Ev.warnErr i t :: Ev.sleepEv :: r.1, r.2)
    | some raw =>
      let h := limpiarHtml raw
      if htmlEsValido h = true then ([Ev.getAttempt i t], some h)
      else
        let r := intentosList fi i resto
        (Ev.getAttempt i t :: Ev.warnInvalid i t :: Ev.sleepEv :: r.1, r.2)

/-- `MAX_REINTENTOS = 3`. -/
def intentos (fi : Nat → Option (List Char)) (i : Nat) : List Ev × Option (List Char) :=
  intentosList fi i [1, 2, 3]

/-- The derived file stem: `extraer_titulo(html_base, f"cuadro_{i:02d}")`
followed by `limpiar_nombre(titulo) or f"cuadro_{i:02d}"`. -/
def nombreCuadro (O : Orac) (i : Nat) (htmlBase : List Char) : List Char :=
  if limpiarNombre O.unescape O.nfkd
       (match O.titulo htmlBase with
        | some t => t
        | none => nombreFallback i) = []
  then nombreFallback i
  else
    limpiarNombre O.unescape O.nfkd
      (match O.titulo htmlBase with
       | some t => t
       | none => nombreFallback i)

/-- One iteration of the link loop: fetch with retries; on exhaustion log
the omission and move on; on success derive the name and call
`guardar_html_y_csv` (whose escaping exceptions propagate). -/
def perLink (O : Orac) (total i : Nat) : List Ev × Bool :=
  match (intentos (O.fetch i) i).2 with
  | none =>
    (Ev.logInfo i total :: (intentos (O.fetch i) i).1 ++ [Ev.errorOmitido i], false)
  | some htmlBase =>
    (Ev.logInfo i total :: (intentos (O.fetch i) i).1 ++
       (guardarHtmlYCsv O.fs O.parse O.parseHtml O.serialize O.readHtml2 O.readHtml1
          htmlBase (nombreCuadro O i htmlBase) O.htmlDir O.csvDir).1,
     (guardarHtmlYCsv O.fs O.parse O.parseHtml O.serialize O.readHtml2 O.readHtml1
        htmlBase (nombreCuadro O i htmlBase) O.htmlDir O.csvDir).2)

/-- The batch loop `for i, link in enumerate(links, start=1)`.  An
exception escaping `guardar_html_y_csv` aborts the remaining links (there
is no try/except around the call in the source). -/
def descargarAux (O : Orac) (total : Nat) : Nat → List (List Char) → List Ev × Bool
  | _, [] => ([], false)
  | i, _ :: resto =>
    let r := perLink O total i
    if r.2 then (r.1, true)
    else
      let r2 := descargarAux O total (i + 1) resto
      (r.1 ++ r2.1, r2.2)

/-- `descargar_y_guardar_cuadros`. -/
def descargarYGuardarCuadros (O : Orac) (links : List (List Char)) : List Ev × Bool :=
  descargarAux O links.length 1 links

/-! Helpers used only to state the claims about the retry unit. -/

/-- A try that the source treats as a failure: a transport error, or a
payload whose cleaned text fails the structural validator. -/
def atFalla (fi : Nat → Option (List Char)) (j : Nat) : Prop :=
  fi j = none ∨ ∃ r, fi j = some r ∧ htmlEsValido (limpiarHtml r) = false

/-- The three events a failed try leaves in the log: the GET, a warning
(of the transport or of the invalid structure) and the retry sleep. -/
def eventosIntentoFallido (fi : Nat → Option (List Char)) (i j : Nat) : List Ev :=
  match fi j with
  | none => [Ev.getAttempt i j, Ev.warnErr i j, Ev.sleepEv]
  | some _ => [Ev.getAttempt i j, Ev.warnInvalid i j, Ev.sleepEv]

/-- How many GETs a trace holds for link `i`. -/
def cuentaFetches (i : Nat) (evs : List Ev) : Nat :=
  evs.countP (fun e => match e with
    | Ev.getAttempt j _ => j == i
    | _ => false)

/-! ## `precios_if.descargar_precios_if_anio`

Workers run concurrently; `as_completed` hands the orchestrator one
outcome per submitted future, in an arbitrary completion order.  The
model takes that completed sequence directly: `Except.ok b` is a worker
that returned `b`, `Except.error msg` a worker whose unhandled exception
reached `future.result()`. -/

inductive EvP where
  | inicio : EvP
  | logErrorHilo : Nat → List Char → EvP
  | resumen : Nat → Nat → Nat → EvP
deriving DecidableEq

/-- The `as_completed` draining loop: counts `exitos`/`errores` and logs
each exception; `idx` numbers the futures in completion order. -/
def drenarFuturos : Nat → List (Except (List Char) Bool) → Nat × Nat × List EvP
  | _, [] => (0, 0, [])
  | idx, o :: resto =>
    let r := drenarFuturos (idx + 1) resto
    match o with
    | Except.ok true => (r.1 + 1, r.2.1, r.2.2)
    | Except.ok false => (r.1, r.2.1 + 1, r.2.2)
    | Except.error msg => (r.1, r.2.1 + 1, EvP.logErrorHilo idx msg :: r.2.2)

/-- `descargar_precios_if_anio`: dispatch, drain every future, then (and
only then) emit the summary `Exitosos | Fallidos/404 | Total`. -/
def descargarPreciosIfAnio (outcomes : List (Except (List Char) Bool)) : List EvP :=
  let r := drenarFuturos 0 outcomes
  EvP.inicio :: r.2.2 ++ [EvP.resumen r.1 r.2.1 outcomes.length]

/-! ## Statement-side material

Descriptions of input shapes used by the claims (the Chilean numeric
format `D{1,3}(.DDD)*(,D+)?`), and concrete instances used by the
counterexamples and witnesses.  These definitions state claims; they do
not embed source code. -/

/-- One `.DDD` thousands group. -/
def grupoMiles (g : Char × Char × Char) : List Char :=
  ['.', g.1, g.2.1, g.2.2]

/-- The optional decimal tail `,D+`. -/
def parteDecimal : Option (List Char) → List Char
  | none => []
  | some dd => ',' :: dd

/-- A string of the claimed form `D{1,3}(.DDD)*(,D+)?`. -/
def formaChilena (a : List Char) (gs : List (Char × Char × Char))
    (d : Option (List Char)) : List Char :=
  a ++ gs.flatMap grupoMiles ++ parteDecimal d

/-- A neutral oracle for concrete runs: every fetch errors, pages have no
`<h3>`, `html.unescape`/NFKD are the identity, nothing parses as a float,
`pd.read_html` finds no table, and every filesystem call succeeds. -/
def oracBase : Orac where
  fetch := fun _ _ => none
  titulo := fun _ => none
  unescape := id
  nfkd := id
  parse := fun _ => none
  parseHtml := fun _ => HNode.texto []
  serialize := fun _ => []
  readHtml2 := fun _ => none
  readHtml1 := fun _ => none
  fs := { mkdirOk := fun _ => true, writeOk := fun _ => true }
  htmlDir := "html".toList
  csvDir := "csv".toList

/-- A structurally valid page (length 511, has `<table` and `<tr`). -/
def paginaValida : List Char :=
  "<table><tr>".toList ++ List.replicate 500 'x'

/-- A decoded payload containing a non-breaking space: structurally valid
after cleanup, but not byte-for-byte preserved by the pipeline. -/
def c7Decodificado : List Char :=
  "<table><tr>".toList ++ List.replicate 500 'x' ++ ['\xA0']

/-- Single-link batch whose decoded payload holds a non-breaking space. -/
def c7Orac : Orac :=
  { oracBase with fetch := fun _ _ => some c7Decodificado }

/-- Two-link batch over a filesystem whose `os.makedirs` always fails. -/
def c8Orac : Orac :=
  { oracBase with
      fetch := fun _ _ => some paginaValida
      fs := { mkdirOk := fun _ => false, writeOk := fun _ => true } }

/-- A parsed table whose only row has first column `"Total"`. -/
def c5Tabla : RawTable :=
  [["Total".toList, "5".toList]]

/-- Oracle under which `pd.read_html` yields exactly `c5Tabla`. -/
def c5Orac : Orac :=
  { oracBase with
      fetch := fun _ _ => some paginaValida
      readHtml2 := fun _ => some [c5Tabla] }

/-! ## C2: the structural validator -/

/-- C2: `_html_es_valido` returns valid exactly when the decoded text is
non-empty, at least 500 characters long, and its lowercased form contains
at least one `<table` marker and at least one `<tr` marker; if any of
these fails it returns invalid. -/
theorem c2_validador_estructural (s : List Char) :
    htmlEsValido s = true ↔
      (s ≠ [] ∧ 500 ≤ s.length ∧
       contieneSub ("<table".toList) (s.map pyLower) = true ∧
       contieneSub ("<tr".toList) (s.map pyLower) = true) := by
  unfold htmlEsValido
  split_ifs with h1 h2 h3 h4
  · simp only [List.isEmpty_iff] at h1
    simp [h1]
  · constructor
    · intro h; exact absurd h (by simp)
    · intro h; omega
  · constructor
    · intro h; exact absurd h (by simp)
    · intro h
      rw [h.2.2.1] at h3
      exact absurd h3 (by simp)
  · constructor
    · intro h; exact absurd h (by simp)
    · intro h
      rw [h.2.2.2] at h4
      exact absurd h4 (by simp)
  · simp only [List.isEmpty_iff] at h1
    constructor
    · intro _
      refine ⟨h1, by omega, ?_, ?_⟩
      · cases hb : contieneSub ("<table".toList) (s.map pyLower) with
        | true => rfl
        | false => exact absurd hb h3
      · cases hb : contieneSub ("<tr".toList) (s.map pyLower) with
        | true => rfl
        | false => exact absurd hb h4
    · intro _; rfl

set_option maxRecDepth 8000 in
/-- C2 witness: a concrete page is validated through the theorem. -/
theorem c2_validador_estructural_testigo :
    htmlEsValido paginaValida = true := by
  refine (c2_validador_estructural paginaValida).mpr ⟨?_, ?_, ?_, ?_⟩
  · decide
  · decide
  · decide
  · decide

/-! ## C9: the worker-pool orchestrator of `precios_if.py` -/

theorem drenarFuturos_suma (idx : Nat) (os : List (Except (List Char) Bool)) :
    (drenarFuturos idx os).1 + (drenarFuturos idx os).2.1 = os.length := by
  induction os generalizing idx with
  | nil => rfl
  | cons o resto ih =>
    have h := ih (idx + 1)
    cases o with
    | ok b => cases b <;> simp only [drenarFuturos, List.length_cons] <;> omega
    | error m =>
      simp only [drenarFuturos, List.length_cons]
      omega

theorem drenarFuturos_exitos (idx : Nat) (os : List (Except (List Char) Bool)) :
    (drenarFuturos idx os).1 =
      os.countP (fun o => match o with | Except.ok true => true | _ => false) := by
  induction os generalizing idx with
  | nil => rfl
  | cons o resto ih =>
    cases o with
    | ok b => cases b <;> simp [drenarFuturos, List.countP_cons, ih (idx + 1)]
    | error m => simp [drenarFuturos, List.countP_cons, ih (idx + 1)]

theorem drenarFuturos_errores (idx : Nat) (os : List (Except (List Char) Bool)) :
    (drenarFuturos idx os).2.1 =
      os.countP (fun o => match o with | Except.ok true => false | _ => true) := by
  induction os generalizing idx with
  | nil => rfl
  | cons o resto ih =>
    cases o with
    | ok b => cases b <;> simp [drenarFuturos, List.countP_cons, ih (idx + 1)]
    | error m => simp [drenarFuturos, List.countP_cons, ih (idx + 1)]

theorem drenarFuturos_log (idx k : Nat) (os : List (Except (List Char) Bool))
    (msg : List Char) (h : os[k]? = some (Except.error msg)) :
    EvP.logErrorHilo (idx + k) msg ∈ (drenarFuturos idx os).2.2 := by
  induction os generalizing idx k with
  | nil => simp at h
  | cons o resto ih =>
    cases k with
    | zero =>
      simp only [List.getElem?_cons_zero, Option.some.injEq] at h
      subst h
      simp [drenarFuturos]
    | succ k =>
      simp only [List.getElem?_cons_succ] at h
      have hmem := ih (idx + 1) k h
      have harit : idx + 1 + k = idx + (k + 1) := by omega
      rw [harit] at hmem
      cases o with
      | ok b => cases b <;> simpa [drenarFuturos] using hmem
      | error m =>
        simp only [drenarFuturos]
        exact List.mem_cons_of_mem _ hmem

/-- C9: the orchestrator drains every future: an exception escaping a
worker is logged and counted as a failure for that resource only, the
successes and failures together account for every dispatched resource
exactly once, and the summary (with those counts) is the last event,
emitted only after all futures completed. -/
theorem c9_orquestador_precios (outcomes : List (Except (List Char) Bool)) :
    (drenarFuturos 0 outcomes).1 + (drenarFuturos 0 outcomes).2.1 = outcomes.length ∧
    (drenarFuturos 0 outcomes).1 =
      outcomes.countP (fun o => match o with | Except.ok true => true | _ => false) ∧
    (drenarFuturos 0 outcomes).2.1 =
      outcomes.countP (fun o => match o with | Except.ok true => false | _ => true) ∧
    (∀ k msg, outcomes[k]? = some (Except.error msg) →
       EvP.logErrorHilo k msg ∈ descargarPreciosIfAnio outcomes) ∧
    (descargarPreciosIfAnio outcomes).getLast? =
      some (EvP.resumen (drenarFuturos 0 outcomes).1 (drenarFuturos 0 outcomes).2.1
              outcomes.length) := by
  refine ⟨drenarFuturos_suma 0 outcomes, drenarFuturos_exitos 0 outcomes,
          drenarFuturos_errores 0 outcomes, ?_, ?_⟩
  · intro k msg h
    have := drenarFuturos_log 0 k outcomes msg h
    rw [Nat.zero_add] at this
    unfold descargarPreciosIfAnio
    right
    exact List.mem_append_left _ this
  · unfold descargarPreciosIfAnio
    rw [show (EvP.inicio :: (drenarFuturos 0 outcomes).2.2 ++
          [EvP.resumen (drenarFuturos 0 outcomes).1 (drenarFuturos 0 outcomes).2.1
             outcomes.length]) =
        ((EvP.inicio :: (drenarFuturos 0 outcomes).2.2) ++
          [EvP.resumen (drenarFuturos 0 outcomes).1 (drenarFuturos 0 outcomes).2.1
             outcomes.length]) from by simp]
    exact List.getLast?_concat _

/-- C9 witness: a concrete completed batch (one success, one worker
exception, one 404-style failure) run through the theorem. -/
theorem c9_orquestador_precios_testigo :
    EvP.logErrorHilo 1 ("boom".toList) ∈
      descargarPreciosIfAnio [Except.ok true, Except.error ("boom".toList), Except.ok false] := by
  exact (c9_orquestador_precios
    [Except.ok true, Except.error ("boom".toList), Except.ok false]).2.2.2.1 1 ("boom".toList) rfl

/-! ## C6: numeric conversion of every column except the first -/

/-- C6: in the normalized table each row is processed positionally: the
first column is never numerically converted (it stays text), every later
cell goes through `pd.to_numeric(errors="coerce")` — which yields a
number or the missing-value marker and never raises — and an unparseable
cell becomes the missing-value marker. -/
theorem c6_primera_columna_sin_convertir (parse : List Char → Option ℚ)
    (t : RawTable) (i : Nat) (r : List (List Char))
    (h : t[i]? = some r) :
    (procesarTabla parse t)[i]? = some (coerceRow parse r) ∧
    (coerceRow parse r).head? = r.head?.map Cell.texto ∧
    (∀ j s, r[j + 1]? = some s →
       (coerceRow parse r)[j + 1]? = some (coerceCell parse s)) ∧
    (∀ s, (∃ q, coerceCell parse s = Cell.num q) ∨ coerceCell parse s = Cell.falta) ∧
    (∀ s, parse s = none → coerceCell parse s = Cell.falta) := by
  refine ⟨?_, ?_, ?_, ?_, ?_⟩
  · unfold procesarTabla
    rw [List.getElem?_map, h]
    rfl
  · cases r with
    | nil => rfl
    | cons c0 resto => rfl
  · intro j s hs
    cases r with
    | nil => simp at hs
    | cons c0 resto =>
      simp only [List.getElem?_cons_succ] at hs
      simp only [coerceRow, List.getElem?_cons_succ, List.getElem?_map, hs]
      rfl
  · intro s
    unfold coerceCell
    cases hp : parse s with
    | none => right; rfl
    | some q => left; exact ⟨q, rfl⟩
  · intro s hp
    unfold coerceCell
    rw [hp]

/-- C6 witness: the theorem applied to a concrete two-column table and a
parser that rejects everything, showing the label kept as text and the
data cell coerced to the missing marker. -/
theorem c6_primera_columna_sin_convertir_testigo :
    (procesarTabla (fun _ => none) c5Tabla)[0]? =
      some [Cell.texto ("Total".toList), Cell.falta] := by
  have h := c6_primera_columna_sin_convertir (fun _ => none) c5Tabla 0
    (["Total".toList, "5".toList]) rfl
  rw [h.1]
  rfl

/-! ## C4: the node-scoped transform never touches markup -/

mutual
theorem sinTextos_transformarNodo (parent : Option (List Char)) (n : HNode) :
    sinTextos (transformarNodo parent n) = sinTextos n := by
  cases n with
  | texto s =>
    simp only [transformarNodo]
    split
    · rfl
    · split <;> rfl
  | elem tag attrs hijos =>
    simp only [transformarNodo, sinTextos]
    rw [sinTextosF_transformarNodos]

theorem sinTextosF_transformarNodos (parent : Option (List Char)) (ns : HForest) :
    sinTextosF (transformarNodos parent ns) = sinTextosF ns := by
  cases ns with
  | nil => rfl
  | cons n resto =>
    simp only [transformarNodos, sinTextosF]
    rw [sinTextos_transformarNodo, sinTextosF_transformarNodos]
end

mutual
theorem atributos_transformarNodo (parent : Option (List Char)) (n : HNode) :
    atributos (transformarNodo parent n) = atributos n := by
  cases n with
  | texto s =>
    simp only [transformarNodo]
    split
    · rfl
    · split <;> rfl
  | elem tag attrs hijos =>
    simp only [transformarNodo, atributos]
    rw [atributosF_transformarNodos]

theorem atributosF_transformarNodos (parent : Option (List Char)) (ns : HForest) :
    atributosF (transformarNodos parent ns) = atributosF ns := by
  cases ns with
  | nil => rfl
  | cons n resto =>
    simp only [transformarNodos, atributosF]
    rw [atributos_transformarNodo, atributosF_transformarNodos]
end

mutual
theorem etiquetas_transformarNodo (parent : Option (List Char)) (n : HNode) :
    etiquetas (transformarNodo parent n) = etiquetas n := by
  cases n with
  | texto s =>
    simp only [transformarNodo]
    split
    · rfl
    · split <;> rfl
  | elem tag attrs hijos =>
    simp only [transformarNodo, etiquetas]
    rw [etiquetasF_transformarNodos]

theorem etiquetasF_transformarNodos (parent : Option (List Char)) (ns : HForest) :
    etiquetasF (transformarNodos parent ns) = etiquetasF ns := by
  cases ns with
  | nil => rfl
  | cons n resto =>
    simp only [transformarNodos, etiquetasF]
    rw [etiquetas_transformarNodo, etiquetasF_transformarNodos]
end

/-- C4: the node-scoped numeric normalizer preserves the whole markup
skeleton — every attribute value (hrefs included), every tag name and the
document structure are unchanged, only character data inside text nodes
may change — and text nodes whose parent is `script` or `style` are left
untouched. -/
theorem c4_transformacion_preserva_marcado (parent : Option (List Char)) (n : HNode) :
    sinTextos (transformarNodo parent n) = sinTextos n ∧
    atributos (transformarNodo parent n) = atributos n ∧
    etiquetas (transformarNodo parent n) = etiquetas n ∧
    (∀ s, transformarNodo (some ("script".toList)) (HNode.texto s) = HNode.texto s) ∧
    (∀ s, transformarNodo (some ("style".toList)) (HNode.texto s) = HNode.texto s) := by
  refine ⟨sinTextos_transformarNodo parent n, atributos_transformarNodo parent n,
          etiquetas_transformarNodo parent n, ?_, ?_⟩
  · intro s
    simp [transformarNodo]
  · intro s
    simp [transformarNodo]

/-! ## C10: filename stems are non-empty and filesystem-safe -/

theorem toNat_ofNat_bajo (n : Nat) (h : n < 55296) : (Char.ofNat n).toNat = n := by
  have hv : n.isValidChar := Or.inl h
  simp [Char.ofNat, hv, Char.ofNatAux, Char.toNat, UInt32.ofNat', UInt32.toNat,
    BitVec.toNat_ofNatLt]

theorem char_eq_of_toNat (c : Char) (n : Nat) (hn : n < 55296) (h : c.toNat = n) :
    c = Char.ofNat n := by
  rw [← h, Char.ofNat_toNat]

theorem pyLower_permitido (c : Char)
    (hc : esPalabra c = true ∨ c = '-') :
    (97 ≤ (pyLower c).toNat ∧ (pyLower c).toNat ≤ 122) ∨
      esDigito (pyLower c) = true ∨ pyLower c = '_' ∨ pyLower c = '-' := by
  rcases hc with hw | hd
  · simp only [esPalabra, esDigito, Bool.or_eq_true, Bool.and_eq_true,
      decide_eq_true_eq, beq_iff_eq] at hw
    rcases hw with ((hdig | hup) | hlo) | hu
    · right; left
      have : pyLower c = c := by
        unfold pyLower
        rw [if_neg (by omega)]
      rw [this]
      simp only [esDigito, Bool.and_eq_true, decide_eq_true_eq]
      omega
    · left
      have : pyLower c = Char.ofNat (c.toNat + 32) := by
        unfold pyLower
        rw [if_pos (by omega)]
      rw [this, toNat_ofNat_bajo (c.toNat + 32) (by omega)]
      omega
    · left
      have : pyLower c = c := by
        unfold pyLower
        rw [if_neg (by omega)]
      rw [this]
      omega
    · right; right; left
      have hpc : pyLower c = c := by
        unfold pyLower
        rw [if_neg (by omega)]
      rw [hpc, char_eq_of_toNat c 95 (by omega) hu]
  · subst hd
    right; right; right
    rfl

theorem espaciosAGuion_mem (s : List Char) (flag : Bool) (c : Char)
    (h : c ∈ espaciosAGuion flag s) :
    c = '_' ∨ (c ∈ s ∧ esPyEspacio c = false) := by
  induction s generalizing flag with
  | nil => simp [espaciosAGuion] at h
  | cons a t ih =>
    rw [espaciosAGuion] at h
    by_cases ha : esPyEspacio a = true
    · rw [if_pos ha] at h
      cases flag with
      | true =>
        rw [if_pos rfl] at h
        rcases ih true h with h1 | h2
        · exact Or.inl h1
        · exact Or.inr ⟨List.mem_cons_of_mem _ h2.1, h2.2⟩
      | false =>
        rw [if_neg (by simp)] at h
        simp only [List.mem_cons] at h
        rcases h with h1 | h1
        · exact Or.inl h1
        · rcases ih true h1 with h2 | h2
          · exact Or.inl h2
          · exact Or.inr ⟨List.mem_cons_of_mem _ h2.1, h2.2⟩
    · rw [if_neg ha] at h
      simp only [List.mem_cons] at h
      rcases h with h1 | h1
      · subst h1
        exact Or.inr ⟨List.mem_cons_self _ _, by simpa using ha⟩
      · rcases ih false h1 with h2 | h2
        · exact Or.inl h2
        · exact Or.inr ⟨List.mem_cons_of_mem _ h2.1, h2.2⟩

theorem colapsaGuiones_mem (s : List Char) (flag : Bool) (c : Char)
    (h : c ∈ colapsaGuiones flag s) :
    c = '_' ∨ c ∈ s := by
  induction s generalizing flag with
  | nil => simp [colapsaGuiones] at h
  | cons a t ih =>
    rw [colapsaGuiones] at h
    by_cases ha : a = '_'
    · rw [if_pos ha] at h
      cases flag with
      | true =>
        rw [if_pos rfl] at h
        rcases ih true h with h1 | h1
        · exact Or.inl h1
        · exact Or.inr (List.mem_cons_of_mem _ h1)
      | false =>
        rw [if_neg (by simp)] at h
        simp only [List.mem_cons] at h
        rcases h with h1 | h1
        · exact Or.inl h1
        · rcases ih true h1 with h2 | h2
          · exact Or.inl h2
          · exact Or.inr (List.mem_cons_of_mem _ h2)
    · rw [if_neg ha] at h
      simp only [List.mem_cons] at h
      rcases h with h1 | h1
      · exact Or.inr (by simp [h1])
      · rcases ih false h1 with h2 | h2
        · exact Or.inl h2
        · exact Or.inr (List.mem_cons_of_mem _ h2)

theorem head?_dropWhile_no {α : Type} (p : α → Bool) (l : List α) (c : α)
    (h : (l.dropWhile p).head? = some c) : p c = false := by
  induction l with
  | nil => simp at h
  | cons a t ih =>
    rw [List.dropWhile_cons] at h
    by_cases hpa : p a = true
    · rw [if_pos hpa] at h
      exact ih h
    · rw [if_neg hpa] at h
      simp only [List.head?_cons, Option.some.injEq] at h
      subst h
      simpa using hpa

theorem getLast?_dropWhile_ne {α : Type} (p : α → Bool) (l : List α)
    (h : l.dropWhile p ≠ []) : (l.dropWhile p).getLast? = l.getLast? := by
  induction l with
  | nil => simp at h
  | cons a t ih =>
    rw [List.dropWhile_cons]
    by_cases hpa : p a = true
    · rw [List.dropWhile_cons, if_pos hpa] at h
      rw [if_pos hpa, ih h]
      have ht : t ≠ [] := by
        intro he
        apply h
        rw [he]
        rfl
      cases t with
      | nil => exact absurd rfl ht
      | cons b u => rw [List.getLast?_cons_cons]
    · rw [if_neg hpa]

theorem pyStripChar_head (ch : Char) (s : List Char) (c : Char)
    (h : (pyStripChar ch s).head? = some c) : c ≠ ch := by
  unfold pyStripChar at h
  set u := s.dropWhile (fun c => c == ch) with hu
  set v := u.reverse.dropWhile (fun c => c == ch) with hv
  cases hne : v with
  | nil => rw [hne] at h; simp at h
  | cons b w =>
    have hvne : v ≠ [] := by rw [hne]; exact List.cons_ne_nil _ _
    have h1 : (v.reverse).head? = v.getLast? := by
      rw [← List.getLast?_reverse]
      simp
    rw [h1, getLast?_dropWhile_ne _ _ hvne, List.getLast?_reverse] at h
    have := head?_dropWhile_no (fun c => c == ch) s c h
    simpa using this

theorem pyStripChar_last (ch : Char) (s : List Char) (c : Char)
    (h : (pyStripChar ch s).getLast? = some c) : c ≠ ch := by
  unfold pyStripChar at h
  rw [List.getLast?_reverse] at h
  have := head?_dropWhile_no (fun c => c == ch) _ c h
  simpa using this

theorem pyStripChar_mem (ch : Char) (s : List Char) (c : Char)
    (h : c ∈ pyStripChar ch s) : c ∈ s := by
  unfold pyStripChar at h
  rw [List.mem_reverse] at h
  have h1 := (List.dropWhile_sublist (l := (s.dropWhile (fun c => c == ch)).reverse)
    (fun c => c == ch)).mem h
  rw [List.mem_reverse] at h1
  exact (List.dropWhile_sublist (fun c => c == ch)).mem h1

theorem pyStripChar_length (ch : Char) (s : List Char) :
    (pyStripChar ch s).length ≤ s.length := by
  unfold pyStripChar
  rw [List.length_reverse]
  calc ((s.dropWhile fun c => c == ch).reverse.dropWhile fun c => c == ch).length
      ≤ (s.dropWhile fun c => c == ch).reverse.length :=
        (List.dropWhile_sublist _).length_le
    _ = (s.dropWhile fun c => c == ch).length := List.length_reverse _
    _ ≤ s.length := (List.dropWhile_sublist _).length_le

/-- C10: for every input the slugifier returns at most 180 characters,
all of them lowercase ASCII letters, digits, underscores or hyphens, with
no leading or trailing underscore; and the name actually used for output
files — the slug, or the positional fallback `cuadro_{i:02d}` whenever
the slug is empty — is never empty. -/
theorem c10_nombres_seguros (unescape nfkd : List Char → List Char)
    (texto : List Char) (i : Nat) :
    (limpiarNombre unescape nfkd texto).length ≤ 180 ∧
    (∀ c ∈ limpiarNombre unescape nfkd texto,
       (97 ≤ c.toNat ∧ c.toNat ≤ 122) ∨ esDigito c = true ∨ c = '_' ∨ c = '-') ∧
    (∀ c, (limpiarNombre unescape nfkd texto).head? = some c → c ≠ '_') ∧
    (∀ c, (limpiarNombre unescape nfkd texto).getLast? = some c → c ≠ '_') ∧
    (if limpiarNombre unescape nfkd texto = [] then nombreFallback i
     else limpiarNombre unescape nfkd texto) ≠ [] := by
  unfold limpiarNombre
  set t4 := ((nfkd (pyStrip (unescape texto))).filter (fun c => c.toNat < 128)).filter
    (fun c => esPalabra c || esPyEspacio c || c == '-') with ht4
  set t6 := colapsaGuiones false (espaciosAGuion false t4) with ht6
  refine ⟨?_, ?_, ?_, ?_, ?_⟩
  · calc (pyStripChar '_' ((t6.map pyLower).take 180)).length
        ≤ ((t6.map pyLower).take 180).length := pyStripChar_length _ _
      _ ≤ 180 := by
          rw [List.length_take]
          exact Nat.min_le_left _ _
  · intro c hc
    have hc1 : c ∈ (t6.map pyLower).take 180 := pyStripChar_mem _ _ _ hc
    have hc2 : c ∈ t6.map pyLower := (List.take_sublist _ _).mem hc1
    rcases List.mem_map.mp hc2 with ⟨c0, hc0, rfl⟩
    rcases colapsaGuiones_mem _ _ _ hc0 with h1 | h1
    · subst h1
      right; right; left
      rfl
    · rcases espaciosAGuion_mem _ _ _ h1 with h2 | h2
      · subst h2
        right; right; left
        rfl
      · have h3 := (List.mem_filter.mp h2.1).2
        simp only [Bool.or_eq_true, beq_iff_eq] at h3
        rcases h3 with (h4 | h4) | h4
        · exact pyLower_permitido c0 (Or.inl h4)
        · rw [h4] at h2
          exact absurd h2.2 (by simp)
        · exact pyLower_permitido c0 (Or.inr h4)
  · intro c hc
    exact pyStripChar_head _ _ _ hc
  · intro c hc
    exact pyStripChar_last _ _ _ hc
  · split
    · unfold nombreFallback
      simp
    · assumption

/-- C10 witness: the theorem applied at a concrete title and index. -/
theorem c10_nombres_seguros_testigo :
    (limpiarNombre id id ("  TOTAL ACTIVOS (MM$)  ".toList)).length ≤ 180 ∧
    (if limpiarNombre id id ("".toList) = [] then nombreFallback 3
     else limpiarNombre id id ("".toList)) ≠ [] := by
  exact ⟨(c10_nombres_seguros id id ("  TOTAL ACTIVOS (MM$)  ".toList) 3).1,
         (c10_nombres_seguros id id ("".toList) 3).2.2.2.2⟩

/-! ## C1: the numeric normalizer on the full Chilean format -/

theorem digit_no_espacio (c : Char) (h : esDigito c = true) : esPyEspacio c = false := by
  simp only [esDigito, Bool.and_eq_true, decide_eq_true_eq] at h
  simp only [esPyEspacio, Bool.or_eq_false_iff, Bool.and_eq_false_iff]
  constructor
  · simp only [beq_eq_false_iff_ne, ne_eq]
    omega
  · right
    simp only [decide_eq_false_iff_not]
    omega

theorem dropWhile_todo_falso {α : Type} (p : α → Bool) (l : List α)
    (h : ∀ c ∈ l, p c = false) : l.dropWhile p = l := by
  cases l with
  | nil => rfl
  | cons a t =>
    rw [List.dropWhile_cons, if_neg]
    rw [h a (List.mem_cons_self _ _)]
    simp

theorem pyStrip_eq_self (s : List Char) (h : ∀ c ∈ s, esPyEspacio c = false) :
    pyStrip s = s := by
  unfold pyStrip
  rw [dropWhile_todo_falso _ _ h,
      dropWhile_todo_falso _ _ (fun c hc => h c (List.mem_reverse.mp hc)),
      List.reverse_reverse]

theorem digitRun_append (a r : List Char) (ha : ∀ c ∈ a, esDigito c = true)
    (hr : ∀ c t, r = c :: t → esDigito c = false) :
    digitRun (a ++ r) = a.length := by
  induction a with
  | nil =>
    simp only [List.nil_append, List.length_nil]
    cases r with
    | nil => rfl
    | cons c t =>
      rw [digitRun, if_neg]
      rw [hr c t rfl]
      simp
  | cons x xs ih =>
    rw [List.cons_append, digitRun, if_pos (ha x (List.mem_cons_self _ _)),
        ih (fun c hc => ha c (List.mem_cons_of_mem _ hc))]
    rfl

theorem digitRun_todo (l : List Char) (h : ∀ c ∈ l, esDigito c = true) :
    digitRun l = l.length := by
  have := digitRun_append l [] h (by intro c t ht; simp at ht)
  simpa using this

theorem starReps_no_punto (r : List Char) (hr : ∀ c t, r = c :: t → c ≠ '.') :
    starReps r = 0 := by
  match r with
  | [] => rfl
  | [c] => rfl
  | [c, x] => rfl
  | [c, x, y] => rfl
  | c :: x :: y :: z :: w =>
    rw [starReps, if_neg]
    intro h
    exact hr c _ rfl h.1

theorem starReps_grupos (gs : List (Char × Char × Char)) (r : List Char)
    (hg : ∀ g ∈ gs, esDigito g.1 = true ∧ esDigito g.2.1 = true ∧ esDigito g.2.2 = true)
    (hr : ∀ c t, r = c :: t → c ≠ '.') :
    starReps (gs.flatMap grupoMiles ++ r) = gs.length := by
  induction gs with
  | nil => simpa using starReps_no_punto r hr
  | cons g resto ih =>
    obtain ⟨x, y, z⟩ := g
    have hgx := hg (x, y, z) (List.mem_cons_self _ _)
    rw [List.flatMap_cons, List.append_assoc]
    show starReps ('.' :: x :: y :: z :: (resto.flatMap grupoMiles ++ r)) = _
    rw [starReps, if_pos ⟨rfl, hgx.1, hgx.2.1, hgx.2.2⟩,
        ih (fun g hg1 => hg g (List.mem_cons_of_mem _ hg1))]
    rfl

theorem length_flatMap_grupos (gs : List (Char × Char × Char)) :
    (gs.flatMap grupoMiles).length = 4 * gs.length := by
  induction gs with
  | nil => rfl
  | cons g resto ih =>
    obtain ⟨x, y, z⟩ := g
    rw [List.flatMap_cons, List.length_append, ih]
    show 4 + 4 * resto.length = 4 * (resto.length + 1)
    omega

theorem downTo0_cons (n : Nat) : ∃ l, downTo0 n = n :: l := by
  cases n with
  | zero => exact ⟨[], rfl⟩
  | succ m => exact ⟨downTo0 m, rfl⟩

theorem alt1Cands_cabeza (a : List Char) (gs : List (Char × Char × Char))
    (d : Option (List Char))
    (ha0 : a ≠ []) (ha3 : a.length ≤ 3) (had : ∀ c ∈ a, esDigito c = true)
    (hg : ∀ g ∈ gs, esDigito g.1 = true ∧ esDigito g.2.1 = true ∧ esDigito g.2.2 = true)
    (hd : ∀ dd, d = some dd → dd ≠ [] ∧ ∀ c ∈ dd, esDigito c = true) :
    (alt1Cands (formaChilena a gs d)).head? =
      some (formaChilena a gs d).length := by
  have hGD : ∀ c t,
      gs.flatMap grupoMiles ++ parteDecimal d = c :: t → esDigito c = false := by
    intro c t hct
    cases gs with
    | cons g resto =>
      obtain ⟨x, y, z⟩ := g
      rw [List.flatMap_cons] at hct
      have hcp : c = '.' := by
        have h2 := congrArg List.head? hct
        simpa [grupoMiles] using h2.symm
      subst hcp
      decide
    | nil =>
      cases d with
      | none => simp [parteDecimal] at hct
      | some dd =>
        simp only [List.flatMap_nil, List.nil_append, parteDecimal] at hct
        have : c = ',' := (List.cons.injEq _ _ _ _).mp hct |>.1.symm
        subst this
        decide
  have hrun : digitRun (formaChilena a gs d) = a.length := by
    rw [formaChilena, List.append_assoc]
    exact digitRun_append _ _ had hGD
  have hmin : min 3 (digitRun (formaChilena a gs d)) = a.length := by
    rw [hrun]
    omega
  obtain ⟨m, hm⟩ : ∃ m, a.length = m + 1 := by
    cases a with
    | nil => exact absurd rfl ha0
    | cons x xs => exact ⟨xs.length, rfl⟩
  have hdrop1 : (formaChilena a gs d).drop a.length =
      gs.flatMap grupoMiles ++ parteDecimal d := by
    rw [formaChilena, List.append_assoc]
    exact List.drop_left _ _
  have hstar : starReps ((formaChilena a gs d).drop a.length) = gs.length := by
    rw [hdrop1]
    refine starReps_grupos gs _ hg ?_
    intro c t hct
    cases d with
    | none => simp [parteDecimal] at hct
    | some dd =>
      simp only [parteDecimal] at hct
      have : c = ',' := (List.cons.injEq _ _ _ _).mp hct |>.1.symm
      subst this
      decide
  have hdrop2 : (formaChilena a gs d).drop (a.length + 4 * gs.length) =
      parteDecimal d := by
    rw [formaChilena]
    refine List.drop_left' ?_
    rw [List.length_append, length_flatMap_grupos]
  have hlen : (formaChilena a gs d).length =
      a.length + 4 * gs.length + (parteDecimal d).length := by
    rw [formaChilena, List.length_append, List.length_append, length_flatMap_grupos]
  obtain ⟨l0, hl0⟩ := downTo0_cons gs.length
  -- unfold the head of the candidate enumeration
  rw [alt1Cands, hmin, hm]
  rw [show downFrom (m + 1) = (m + 1) :: downFrom m from rfl]
  rw [List.flatMap_cons, ← hm, hstar, hl0, List.flatMap_cons, hdrop2]
  cases d with
  | none =>
    rw [show commaCands (parteDecimal none) = [0] from rfl]
    simp only [List.map_cons, List.map_nil, List.cons_append, List.nil_append]
    rw [List.head?_cons, hlen]
    simp [parteDecimal]
  | some dd =>
    obtain ⟨hdne, hddig⟩ := hd dd rfl
    obtain ⟨p, hp⟩ : ∃ p, dd.length = p + 1 := by
      cases dd with
      | nil => exact absurd rfl hdne
      | cons x xs => exact ⟨xs.length, rfl⟩
    have hcc : commaCands (parteDecimal (some dd)) =
        (1 + dd.length) :: (((downFrom p).map (fun i => 1 + i)) ++ [0]) := by
      show commaCands (',' :: dd) = _
      rw [commaCands, digitRun_todo dd hddig, hp]
      rw [show downFrom (p + 1) = (p + 1) :: downFrom p from rfl]
      rw [List.map_cons, List.cons_append]
    rw [hcc, List.map_cons, List.cons_append, List.cons_append]
    rw [List.head?_cons, hlen]
    simp only [parteDecimal, List.length_cons, Option.some.injEq]
    omega

theorem pyMatch_formaChilena (a : List Char) (gs : List (Char × Char × Char))
    (d : Option (List Char))
    (ha0 : a ≠ []) (ha3 : a.length ≤ 3) (had : ∀ c ∈ a, esDigito c = true)
    (hg : ∀ g ∈ gs, esDigito g.1 = true ∧ esDigito g.2.1 = true ∧ esDigito g.2.2 = true)
    (hd : ∀ dd, d = some dd → dd ≠ [] ∧ ∀ c ∈ dd, esDigito c = true) :
    pyMatch none (formaChilena a gs d) = some (formaChilena a gs d).length := by
  have hh := alt1Cands_cabeza a gs d ha0 ha3 had hg hd
  obtain ⟨resto, hr⟩ : ∃ resto, alt1Cands (formaChilena a gs d) =
      (formaChilena a gs d).length :: resto := by
    cases hq : alt1Cands (formaChilena a gs d) with
    | nil => rw [hq] at hh; simp at hh
    | cons x t =>
      rw [hq] at hh
      simp only [List.head?_cons, Option.some.injEq] at hh
      exact ⟨t, by rw [hh]⟩
  unfold pyMatch
  rw [if_pos (show boundaryOk none = true from rfl), hr,
      List.cons_append, List.cons_append]
  refine List.find?_cons_of_pos _ ?_
  rw [List.drop_length]
  rfl

theorem subNums_todo (prev : Option Char) (s : List Char) (hs : s ≠ [])
    (hm : pyMatch prev s = some s.length) : subNums prev s = toFloatToken s := by
  cases s with
  | nil => exact absurd rfl hs
  | cons c rest =>
    rw [List.length_cons] at hm
    have h1 : (c :: rest).take (rest.length + 1) = c :: rest := by
      rw [show rest.length + 1 = (c :: rest).length from rfl, List.take_length]
    have h2 : (c :: rest).drop (rest.length + 1) = [] := by
      rw [show rest.length + 1 = (c :: rest).length from rfl, List.drop_length]
    rw [subNums, hm]
    simp only [h1, h2, subNums, List.append_nil]

/-- C1: for every string of the form `D{1,3}(.DDD)*(,D+)?` — 1 to 3
digits, any number of dot-separated 3-digit thousands groups, and an
optional comma-decimal tail — `_transformar_solo_numeros_en_texto`
rewrites the whole string by removing every `'.'` thousands separator and
turning the `','` into `'.'`, so `"1.234,56"` becomes `"1234.56"`,
`"12.345"` becomes `"12345"`, `"12,3"` becomes `"12.3"` and a bare
integer like `"123"` passes through unchanged. -/
theorem c1_normalizador_numerico (a : List Char) (gs : List (Char × Char × Char))
    (d : Option (List Char))
    (ha0 : a ≠ []) (ha3 : a.length ≤ 3) (had : ∀ c ∈ a, esDigito c = true)
    (hg : ∀ g ∈ gs, esDigito g.1 = true ∧ esDigito g.2.1 = true ∧ esDigito g.2.2 = true)
    (hd : ∀ dd, d = some dd → dd ≠ [] ∧ ∀ c ∈ dd, esDigito c = true) :
    transformarSoloNumerosEnTexto (formaChilena a gs d) =
      ((formaChilena a gs d).filter (fun c => c != '.')).map
        (fun c => if c = ',' then '.' else c) := by
  have hne : formaChilena a gs d ≠ [] := by
    rw [formaChilena]
    cases a with
    | nil => exact absurd rfl ha0
    | cons x xs => simp
  have hm := pyMatch_formaChilena a gs d ha0 ha3 had hg hd
  rw [transformarSoloNumerosEnTexto, subNums_todo none _ hne hm]
  unfold toFloatToken
  rw [pyStrip_eq_self]
  intro c hc
  rw [formaChilena] at hc
  rcases List.mem_append.mp hc with hc1 | hc2
  · rcases List.mem_append.mp hc1 with hca | hcg
    · exact digit_no_espacio c (had c hca)
    · rcases List.mem_flatMap.mp hcg with ⟨g, hgmem, hcg2⟩
      obtain ⟨x, y, z⟩ := g
      have hgd := hg (x, y, z) hgmem
      simp only [grupoMiles, List.mem_cons, List.not_mem_nil, or_false] at hcg2
      rcases hcg2 with rfl | rfl | rfl | rfl
      · decide
      · exact digit_no_espacio _ hgd.1
      · exact digit_no_espacio _ hgd.2.1
      · exact digit_no_espacio _ hgd.2.2
  · cases d with
    | none => simp [parteDecimal] at hc2
    | some dd =>
      simp only [parteDecimal, List.mem_cons] at hc2
      rcases hc2 with rfl | hc3
      · decide
      · exact digit_no_espacio _ ((hd dd rfl).2 c hc3)

/-- C1 witness: the four examples of the claim, each obtained by applying
the theorem at the concrete decomposition of the input. -/
theorem c1_normalizador_numerico_testigo :
    transformarSoloNumerosEnTexto ("1.234,56".toList) = "1234.56".toList ∧
    transformarSoloNumerosEnTexto ("12.345".toList) = "12345".toList ∧
    transformarSoloNumerosEnTexto ("12,3".toList) = "12.3".toList ∧
    transformarSoloNumerosEnTexto ("123".toList) = "123".toList := by
  refine ⟨?_, ?_, ?_, ?_⟩
  · exact c1_normalizador_numerico ['1'] [('2', '3', '4')] (some ['5', '6'])
      (by decide) (by decide) (by decide) (by decide)
      (fun dd hdd => by cases hdd; exact ⟨by decide, by decide⟩)
  · exact c1_normalizador_numerico ['1', '2'] [('3', '4', '5')] none
      (by decide) (by decide) (by decide) (by decide)
      (fun dd hdd => by cases hdd)
  · exact c1_normalizador_numerico ['1', '2'] [] (some ['3'])
      (by decide) (by decide) (by decide) (by decide)
      (fun dd hdd => by cases hdd; exact ⟨by decide, by decide⟩)
  · exact c1_normalizador_numerico ['1', '2', '3'] [] none
      (by decide) (by decide) (by decide) (by decide)
      (fun dd hdd => by cases hdd)

/-! ## Trace lemmas for the fetch-retry unit and the batch loop -/

theorem eventosIntentoFallido_err (fi : Nat → Option (List Char)) (i t : Nat)
    (h : fi t = none) :
    eventosIntentoFallido fi i t = [Ev.getAttempt i t, Ev.warnErr i t, Ev.sleepEv] := by
  unfold eventosIntentoFallido
  rw [h]

theorem eventosIntentoFallido_inv (fi : Nat → Option (List Char)) (i t : Nat)
    (r : List Char) (h : fi t = some r) :
    eventosIntentoFallido fi i t = [Ev.getAttempt i t, Ev.warnInvalid i t, Ev.sleepEv] := by
  unfold eventosIntentoFallido
  rw [h]

theorem intentosList_todo_falla (fi : Nat → Option (List Char)) (i : Nat)
    (ts : List Nat) (h : ∀ j ∈ ts, atFalla fi j) :
    intentosList fi i ts = (ts.flatMap (eventosIntentoFallido fi i), none) := by
  induction ts with
  | nil => rfl
  | cons t resto ih =>
    have ht := h t (List.mem_cons_self _ _)
    have ihr := ih (fun j hj => h j (List.mem_cons_of_mem _ hj))
    rcases ht with hnone | ⟨r, hr, hval⟩
    · simp [intentosList, hnone, List.flatMap_cons,
        eventosIntentoFallido_err fi i t hnone, ihr]
    · simp [intentosList, hr, hval, List.flatMap_cons,
        eventosIntentoFallido_inv fi i t r hr, ihr]

theorem intentosList_exito (fi : Nat → Option (List Char)) (i : Nat)
    (pre post : List Nat) (k : Nat) (raw : List Char)
    (hpre : ∀ j ∈ pre, atFalla fi j) (hk : fi k = some raw)
    (hval : htmlEsValido (limpiarHtml raw) = true) :
    intentosList fi i (pre ++ k :: post) =
      (pre.flatMap (eventosIntentoFallido fi i) ++ [Ev.getAttempt i k],
       some (limpiarHtml raw)) := by
  induction pre with
  | nil =>
    simp [intentosList, hk, hval]
  | cons t resto ih =>
    have ht := hpre t (List.mem_cons_self _ _)
    have ihr := ih (fun j hj => hpre j (List.mem_cons_of_mem _ hj))
    rcases ht with hnone | ⟨r, hr, hval2⟩
    · simp [intentosList, hnone, List.flatMap_cons,
        eventosIntentoFallido_err fi i t hnone, ihr]
    · simp [intentosList, hr, hval2, List.flatMap_cons,
        eventosIntentoFallido_inv fi i t r hr, ihr]

theorem cuentaFetches_nil (i : Nat) : cuentaFetches i [] = 0 := rfl

theorem cuentaFetches_append (i : Nat) (l1 l2 : List Ev) :
    cuentaFetches i (l1 ++ l2) = cuentaFetches i l1 + cuentaFetches i l2 := by
  unfold cuentaFetches
  exact List.countP_append _ _ _

theorem cuentaFetches_cons_get (i j t : Nat) (l : List Ev) :
    cuentaFetches i (Ev.getAttempt j t :: l) =
      (if j = i then 1 else 0) + cuentaFetches i l := by
  unfold cuentaFetches
  rw [List.countP_cons]
  by_cases hji : j = i <;> simp [hji] <;> omega

theorem cuentaFetches_cons_otro (i : Nat) (e : Ev) (l : List Ev)
    (he : ∀ j t, e ≠ Ev.getAttempt j t) :
    cuentaFetches i (e :: l) = cuentaFetches i l := by
  unfold cuentaFetches
  rw [List.countP_cons]
  cases e <;> simp_all

theorem cuentaFetches_intentosList_le (fi : Nat → Option (List Char)) (j i : Nat)
    (ts : List Nat) :
    cuentaFetches i (intentosList fi j ts).1 ≤ ts.length := by
  induction ts with
  | nil => simp [intentosList, cuentaFetches]
  | cons t resto ih =>
    rw [intentosList]
    cases ht : fi t with
    | none =>
      rw [show (match (none : Option (List Char)) with
          | none =>
            (Ev.getAttempt j t :: Ev.warnErr j t :: Ev.sleepEv ::
              (intentosList fi j resto).1, (intentosList fi j resto).2)
          | some raw =>
            (if htmlEsValido (limpiarHtml raw) = true
             then ([Ev.getAttempt j t], some (limpiarHtml raw))
             else (Ev.getAttempt j t :: Ev.warnInvalid j t :: Ev.sleepEv ::
               (intentosList fi j resto).1, (intentosList fi j resto).2))) =
          (Ev.getAttempt j t :: Ev.warnErr j t :: Ev.sleepEv ::
            (intentosList fi j resto).1, (intentosList fi j resto).2) from rfl]
      rw [cuentaFetches_cons_get,
          cuentaFetches_cons_otro _ _ _ (fun a b => by simp),
          cuentaFetches_cons_otro _ _ _ (fun a b => by simp), List.length_cons]
      have := ih
      split <;> omega
    | some raw =>
      by_cases hv : htmlEsValido (limpiarHtml raw) = true
      · simp only [hv, if_true]
        rw [cuentaFetches_cons_get, cuentaFetches_nil, List.length_cons]
        split <;> omega
      · simp only [intentosList, ht, hv, Bool.false_eq_true, if_false]
        rw [cuentaFetches_cons_get,
            cuentaFetches_cons_otro _ _ _ (fun a b => by simp),
            cuentaFetches_cons_otro _ _ _ (fun a b => by simp), List.length_cons]
        have := ih
        split <;> omega

theorem cuentaFetches_intentosList_ne (fi : Nat → Option (List Char)) (j i : Nat)
    (ts : List Nat) (hne : j ≠ i) :
    cuentaFetches i (intentosList fi j ts).1 = 0 := by
  induction ts with
  | nil => simp [intentosList, cuentaFetches]
  | cons t resto ih =>
    cases ht : fi t with
    | none =>
      simp only [intentosList, ht]
      rw [cuentaFetches_cons_get,
          cuentaFetches_cons_otro _ _ _ (fun a b => by simp),
          cuentaFetches_cons_otro _ _ _ (fun a b => by simp), if_neg hne, ih]
    | some raw =>
      by_cases hv : htmlEsValido (limpiarHtml raw) = true
      · simp only [intentosList, ht, hv, if_true]
        rw [cuentaFetches_cons_get, cuentaFetches_nil, if_neg hne]
      · simp only [intentosList, ht, hv, Bool.false_eq_true, if_false]
        rw [cuentaFetches_cons_get,
            cuentaFetches_cons_otro _ _ _ (fun a b => by simp),
            cuentaFetches_cons_otro _ _ _ (fun a b => by simp), if_neg hne, ih]

theorem intentosList_sin_persistir (fi : Nat → Option (List Char)) (j : Nat)
    (ts : List Nat) (e : Ev) (h : e ∈ (intentosList fi j ts).1) :
    (∀ p c, e ≠ Ev.wroteHtml p c) ∧ (∀ p t, e ≠ Ev.wroteCsv p t) := by
  induction ts with
  | nil => simp [intentosList] at h
  | cons t resto ih =>
    rw [intentosList] at h
    cases ht : fi t with
    | none =>
      rw [ht] at h
      simp only [List.mem_cons] at h
      rcases h with rfl | rfl | rfl | h
      · exact ⟨fun p c => by simp, fun p t => by simp⟩
      · exact ⟨fun p c => by simp, fun p t => by simp⟩
      · exact ⟨fun p c => by simp, fun p t => by simp⟩
      · exact ih h
    | some raw =>
      rw [ht] at h
      by_cases hv : htmlEsValido (limpiarHtml raw) = true
      · simp only [hv, if_true, List.mem_cons, List.not_mem_nil, or_false] at h
        subst h
        exact ⟨fun p c => by simp, fun p t => by simp⟩
      · simp only [hv, Bool.false_eq_true, if_false, List.mem_cons] at h
        rcases h with rfl | rfl | rfl | h
        · exact ⟨fun p c => by simp, fun p t => by simp⟩
        · exact ⟨fun p c => by simp, fun p t => by simp⟩
        · exact ⟨fun p c => by simp, fun p t => by simp⟩
        · exact ih h

theorem intentosList_resultado (fi : Nat → Option (List Char)) (j : Nat)
    (ts : List Nat) (h : List Char)
    (hres : (intentosList fi j ts).2 = some h) :
    ∃ k raw, k ∈ ts ∧ fi k = some raw ∧ h = limpiarHtml raw ∧
      htmlEsValido (limpiarHtml raw) = true := by
  induction ts with
  | nil => simp [intentosList] at hres
  | cons t resto ih =>
    rw [intentosList] at hres
    cases ht : fi t with
    | none =>
      rw [ht] at hres
      obtain ⟨k, raw, hk, hf, he, hv⟩ := ih hres
      exact ⟨k, raw, List.mem_cons_of_mem _ hk, hf, he, hv⟩
    | some raw =>
      rw [ht] at hres
      by_cases hv : htmlEsValido (limpiarHtml raw) = true
      · simp only [hv, if_true, Option.some.injEq] at hres
        exact ⟨t, raw, List.mem_cons_self _ _, ht, hres.symm, hv⟩
      · simp only [hv, Bool.false_eq_true, if_false] at hres
        obtain ⟨k, raw2, hk, hf, he, hv2⟩ := ih hres
        exact ⟨k, raw2, List.mem_cons_of_mem _ hk, hf, he, hv2⟩

theorem guardar_sin_lanzar (fs : FsOracle) (parse : List Char → Option ℚ)
    (parseHtml : List Char → HNode) (serialize : HNode → List Char)
    (readHtml2 readHtml1 : List Char → Option (List RawTable))
    (html nombre htmlDir csvDir : List Char)
    (h1 : fs.mkdirOk htmlDir = true) (h2 : fs.mkdirOk csvDir = true)
    (h3 : fs.writeOk (rutaArchivo htmlDir nombre (".html".toList)) = true) :
    (guardarHtmlYCsv fs parse parseHtml serialize readHtml2 readHtml1
       html nombre htmlDir csvDir).2 = false := by
  unfold guardarHtmlYCsv
  simp only [h1, h2, h3, Bool.true_eq_false, if_false]
  split
  · rfl
  · rfl
  · split <;> rfl

theorem guardar_escribe_html (fs : FsOracle) (parse : List Char → Option ℚ)
    (parseHtml : List Char → HNode) (serialize : HNode → List Char)
    (readHtml2 readHtml1 : List Char → Option (List RawTable))
    (html nombre htmlDir csvDir : List Char)
    (h1 : fs.mkdirOk htmlDir = true) (h2 : fs.mkdirOk csvDir = true)
    (h3 : fs.writeOk (rutaArchivo htmlDir nombre (".html".toList)) = true) :
    Ev.wroteHtml (rutaArchivo htmlDir nombre (".html".toList)) html ∈
      (guardarHtmlYCsv fs parse parseHtml serialize readHtml2 readHtml1
         html nombre htmlDir csvDir).1 := by
  unfold guardarHtmlYCsv
  simp only [h1, h2, h3, Bool.true_eq_false, if_false]
  split
  · simp
  · simp
  · split <;> simp

theorem guardar_contenido_html (fs : FsOracle) (parse : List Char → Option ℚ)
    (parseHtml : List Char → HNode) (serialize : HNode → List Char)
    (readHtml2 readHtml1 : List Char → Option (List RawTable))
    (html nombre htmlDir csvDir p c : List Char)
    (h : Ev.wroteHtml p c ∈
      (guardarHtmlYCsv fs parse parseHtml serialize readHtml2 readHtml1
         html nombre htmlDir csvDir).1) :
    c = html ∧ p = rutaArchivo htmlDir nombre (".html".toList) := by
  unfold guardarHtmlYCsv at h
  split_ifs at h
  all_goals repeat' split at h
  all_goals simp at h
  all_goals tauto

theorem guardar_sin_fetch (fs : FsOracle) (parse : List Char → Option ℚ)
    (parseHtml : List Char → HNode) (serialize : HNode → List Char)
    (readHtml2 readHtml1 : List Char → Option (List RawTable))
    (html nombre htmlDir csvDir : List Char) (i : Nat) :
    cuentaFetches i (guardarHtmlYCsv fs parse parseHtml serialize readHtml2 readHtml1
      html nombre htmlDir csvDir).1 = 0 := by
  unfold cuentaFetches
  rw [List.countP_eq_zero]
  unfold guardarHtmlYCsv
  split_ifs
  all_goals repeat' split
  all_goals simp

theorem wroteHtml_no_fallido (fi : Nat → Option (List Char)) (i j : Nat)
    (p c : List Char) : Ev.wroteHtml p c ∉ eventosIntentoFallido fi i j := by
  unfold eventosIntentoFallido
  cases fi j <;> simp

theorem wroteCsv_no_fallido (fi : Nat → Option (List Char)) (i j : Nat)
    (p : List Char) (t : List (List Cell)) :
    Ev.wroteCsv p t ∉ eventosIntentoFallido fi i j := by
  unfold eventosIntentoFallido
  cases fi j <;> simp

theorem perLink_todo_falla (O : Orac) (total i : Nat)
    (h : ∀ j, 1 ≤ j → j ≤ 3 → atFalla (O.fetch i) j) :
    perLink O total i =
      (Ev.logInfo i total ::
        ([1, 2, 3].flatMap (eventosIntentoFallido (O.fetch i) i)) ++
        [Ev.errorOmitido i], false) := by
  have hi : intentos (O.fetch i) i =
      ([1, 2, 3].flatMap (eventosIntentoFallido (O.fetch i) i), none) := by
    refine intentosList_todo_falla _ _ _ ?_
    intro j hj
    simp only [List.mem_cons, List.not_mem_nil, or_false] at hj
    rcases hj with rfl | rfl | rfl
    · exact h 1 (by omega) (by omega)
    · exact h 2 (by omega) (by omega)
    · exact h 3 (by omega) (by omega)
  simp only [perLink, hi]

theorem perLink_logInfo (O : Orac) (total i : Nat) :
    Ev.logInfo i total ∈ (perLink O total i).1 := by
  simp only [perLink]
  cases hres : (intentos (O.fetch i) i).2 <;> simp

theorem perLink_sin_lanzar (O : Orac) (total i : Nat)
    (hmk : ∀ p, O.fs.mkdirOk p = true)
    (hhtml : ∀ n, O.fs.writeOk (rutaArchivo O.htmlDir n (".html".toList)) = true) :
    (perLink O total i).2 = false := by
  simp only [perLink]
  cases hres : (intentos (O.fetch i) i).2 with
  | none => rfl
  | some htmlBase =>
    exact guardar_sin_lanzar _ _ _ _ _ _ _ _ _ _ (hmk _) (hmk _) (hhtml _)

theorem cuentaFetches_perLink_le (O : Orac) (total i : Nat) :
    cuentaFetches i (perLink O total i).1 ≤ 3 := by
  simp only [perLink]
  cases hres : (intentos (O.fetch i) i).2 with
  | none =>
    show cuentaFetches i
      (Ev.logInfo i total :: (intentos (O.fetch i) i).1 ++ [Ev.errorOmitido i]) ≤ 3
    rw [cuentaFetches_append,
        cuentaFetches_cons_otro i (Ev.logInfo i total) _ (fun a b => by simp),
        cuentaFetches_cons_otro i (Ev.errorOmitido i) [] (fun a b => by simp),
        cuentaFetches_nil]
    have := cuentaFetches_intentosList_le (O.fetch i) i i [1, 2, 3]
    simpa [intentos] using this
  | some htmlBase =>
    show cuentaFetches i
      (Ev.logInfo i total :: (intentos (O.fetch i) i).1 ++
        (guardarHtmlYCsv O.fs O.parse O.parseHtml O.serialize O.readHtml2 O.readHtml1
           htmlBase (nombreCuadro O i htmlBase) O.htmlDir O.csvDir).1) ≤ 3
    rw [cuentaFetches_append,
        cuentaFetches_cons_otro i (Ev.logInfo i total) _ (fun a b => by simp),
        guardar_sin_fetch]
    have := cuentaFetches_intentosList_le (O.fetch i) i i [1, 2, 3]
    simpa [intentos] using this

theorem cuentaFetches_perLink_ne (O : Orac) (total j i : Nat) (hne : j ≠ i) :
    cuentaFetches i (perLink O total j).1 = 0 := by
  simp only [perLink]
  cases hres : (intentos (O.fetch j) j).2 with
  | none =>
    show cuentaFetches i
      (Ev.logInfo j total :: (intentos (O.fetch j) j).1 ++ [Ev.errorOmitido j]) = 0
    rw [cuentaFetches_append,
        cuentaFetches_cons_otro i (Ev.logInfo j total) _ (fun a b => by simp),
        cuentaFetches_cons_otro i (Ev.errorOmitido j) [] (fun a b => by simp),
        cuentaFetches_nil]
    simpa [intentos] using cuentaFetches_intentosList_ne (O.fetch j) j i [1, 2, 3] hne
  | some htmlBase =>
    show cuentaFetches i
      (Ev.logInfo j total :: (intentos (O.fetch j) j).1 ++
        (guardarHtmlYCsv O.fs O.parse O.parseHtml O.serialize O.readHtml2 O.readHtml1
           htmlBase (nombreCuadro O j htmlBase) O.htmlDir O.csvDir).1) = 0
    rw [cuentaFetches_append,
        cuentaFetches_cons_otro i (Ev.logInfo j total) _ (fun a b => by simp),
        guardar_sin_fetch]
    simpa [intentos] using cuentaFetches_intentosList_ne (O.fetch j) j i [1, 2, 3] hne

theorem perLink_wroteHtml (O : Orac) (total i : Nat) (p c : List Char)
    (h : Ev.wroteHtml p c ∈ (perLink O total i).1) :
    ∃ k raw, k ∈ [1, 2, 3] ∧ O.fetch i k = some raw ∧ c = limpiarHtml raw ∧
      htmlEsValido (limpiarHtml raw) = true := by
  simp only [perLink] at h
  cases hres : (intentos (O.fetch i) i).2 with
  | none =>
    rw [hres] at h
    simp only [List.mem_append, List.mem_cons] at h
    rcases h with (h | h) | h
    · simp at h
    · exact absurd rfl ((intentosList_sin_persistir _ _ _ _ h).1 p c)
    · simp at h
  | some htmlBase =>
    rw [hres] at h
    simp only [List.mem_append, List.mem_cons] at h
    rcases h with (h | h) | h
    · simp at h
    · exact absurd rfl ((intentosList_sin_persistir _ _ _ _ h).1 p c)
    · have hc := guardar_contenido_html _ _ _ _ _ _ _ _ _ _ _ _ h
      obtain ⟨k, raw, hk, hf, he, hv⟩ := intentosList_resultado _ _ _ _ hres
      exact ⟨k, raw, hk, hf, by rw [hc.1, he], hv⟩

theorem descargarAux_sin_lanzar (O : Orac) (total : Nat)
    (hmk : ∀ p, O.fs.mkdirOk p = true)
    (hhtml : ∀ n, O.fs.writeOk (rutaArchivo O.htmlDir n (".html".toList)) = true) :
    ∀ (ls : List (List Char)) (start : Nat),
      (descargarAux O total start ls).2 = false := by
  intro ls
  induction ls with
  | nil => intro start; rfl
  | cons l resto ih =>
    intro start
    simp only [descargarAux, perLink_sin_lanzar O total start hmk hhtml,
      Bool.false_eq_true, if_false]
    exact ih (start + 1)

theorem descargarAux_logInfo (O : Orac) (total : Nat)
    (hmk : ∀ p, O.fs.mkdirOk p = true)
    (hhtml : ∀ n, O.fs.writeOk (rutaArchivo O.htmlDir n (".html".toList)) = true)
    (i : Nat) :
    ∀ (ls : List (List Char)) (start : Nat), start ≤ i → i < start + ls.length →
      Ev.logInfo i total ∈ (descargarAux O total start ls).1 := by
  intro ls
  induction ls with
  | nil =>
    intro start h1 h2
    simp at h2
    omega
  | cons l resto ih =>
    intro start h1 h2
    simp only [descargarAux, perLink_sin_lanzar O total start hmk hhtml,
      Bool.false_eq_true, if_false]
    rcases Nat.eq_or_lt_of_le h1 with rfl | hlt
    · exact List.mem_append_left _ (perLink_logInfo O total start)
    · refine List.mem_append_right _ (ih (start + 1) (by omega) ?_)
      simp only [List.length_cons] at h2
      omega

theorem cuentaFetches_descargarAux_lt (O : Orac) (total i : Nat) :
    ∀ (ls : List (List Char)) (start : Nat), i < start →
      cuentaFetches i (descargarAux O total start ls).1 = 0 := by
  intro ls
  induction ls with
  | nil => intro start h; simp [descargarAux, cuentaFetches]
  | cons l resto ih =>
    intro start h
    simp only [descargarAux]
    split
    · exact cuentaFetches_perLink_ne O total start i (by omega)
    · rw [cuentaFetches_append, cuentaFetches_perLink_ne O total start i (by omega),
          ih (start + 1) (by omega)]

theorem cuentaFetches_descargarAux_le (O : Orac) (total i : Nat) :
    ∀ (ls : List (List Char)) (start : Nat),
      cuentaFetches i (descargarAux O total start ls).1 ≤ 3 := by
  intro ls
  induction ls with
  | nil => intro start; simp [descargarAux, cuentaFetches]
  | cons l resto ih =>
    intro start
    simp only [descargarAux]
    by_cases hi : start = i
    · subst hi
      split
      · exact cuentaFetches_perLink_le O total start
      · rw [cuentaFetches_append,
            cuentaFetches_descargarAux_lt O total start resto (start + 1) (by omega)]
        have := cuentaFetches_perLink_le O total start
        omega
    · split
      · rw [cuentaFetches_perLink_ne O total start i hi]
        omega
      · rw [cuentaFetches_append, cuentaFetches_perLink_ne O total start i hi]
        have := ih (start + 1)
        omega

theorem descargarAux_wroteHtml (O : Orac) (total : Nat) (p c : List Char) :
    ∀ (ls : List (List Char)) (start : Nat),
      Ev.wroteHtml p c ∈ (descargarAux O total start ls).1 →
      ∃ i k raw, k ∈ [1, 2, 3] ∧ O.fetch i k = some raw ∧ c = limpiarHtml raw ∧
        htmlEsValido (limpiarHtml raw) = true := by
  intro ls
  induction ls with
  | nil => intro start h; simp [descargarAux] at h
  | cons l resto ih =>
    intro start h
    simp only [descargarAux] at h
    split at h
    · obtain ⟨k, raw, hk, hf, he, hv⟩ := perLink_wroteHtml O total start p c h
      exact ⟨start, k, raw, hk, hf, he, hv⟩
    · rcases List.mem_append.mp h with h1 | h1
      · obtain ⟨k, raw, hk, hf, he, hv⟩ := perLink_wroteHtml O total start p c h1
        exact ⟨start, k, raw, hk, hf, he, hv⟩
      · exact ih (start + 1) h1

/-- C3: for every batch and every fetch behaviour (over a healthy
filesystem) `descargar_y_guardar_cuadros` performs at most
`MAX_REINTENTOS = 3` fetch cycles per link and never raises, and every
link of the batch is processed.  A transport error and a failed
structural validation are handled identically — the try leaves a warning
and the fixed retry sleep in the log and the loop moves to the next try —
while the first try whose cleaned text passes validation ends the attempt
immediately with that text.  A link whose three tries all fail is skipped
with the omission logged and nothing persisted for it. -/
theorem c3_unidad_reintentos (O : Orac) (links : List (List Char))
    (hmk : ∀ p, O.fs.mkdirOk p = true) (hwr : ∀ p, O.fs.writeOk p = true) :
    (descargarYGuardarCuadros O links).2 = false ∧
    (∀ i, cuentaFetches i (descargarYGuardarCuadros O links).1 ≤ 3) ∧
    (∀ i, 1 ≤ i → i ≤ links.length →
       Ev.logInfo i links.length ∈ (descargarYGuardarCuadros O links).1) ∧
    (∀ (fi : Nat → Option (List Char)) (i k : Nat) (raw : List Char),
       (k = 1 ∨ k = 2 ∨ k = 3) →
       (∀ j, 1 ≤ j → j < k → atFalla fi j) →
       fi k = some raw → htmlEsValido (limpiarHtml raw) = true →
       intentos fi i =
         ((List.range' 1 (k - 1)).flatMap (eventosIntentoFallido fi i) ++
            [Ev.getAttempt i k], some (limpiarHtml raw))) ∧
    (∀ i total, (∀ j, 1 ≤ j → j ≤ 3 → atFalla (O.fetch i) j) →
       perLink O total i =
         (Ev.logInfo i total ::
           ([1, 2, 3].flatMap (eventosIntentoFallido (O.fetch i) i)) ++
           [Ev.errorOmitido i], false) ∧
       (∀ p c, Ev.wroteHtml p c ∉ (perLink O total i).1) ∧
       (∀ p t, Ev.wroteCsv p t ∉ (perLink O total i).1)) := by
  refine ⟨descargarAux_sin_lanzar O links.length hmk (fun n => hwr _) links 1,
          fun i => cuentaFetches_descargarAux_le O links.length i links 1,
          fun i h1 h2 => descargarAux_logInfo O links.length hmk (fun n => hwr _) i
            links 1 h1 (by omega),
          ?_, ?_⟩
  · intro fi i k raw hk3 hfail hfk hval
    unfold intentos
    rcases hk3 with rfl | rfl | rfl
    · have h := intentosList_exito fi i [] [2, 3] 1 raw (by simp) hfk hval
      rw [show List.range' 1 (1 - 1) = [] from rfl]
      exact h
    · have h := intentosList_exito fi i [1] [3] 2 raw
        (by
          intro j hj
          simp only [List.mem_cons, List.not_mem_nil, or_false] at hj
          subst hj
          exact hfail 1 (by omega) (by omega)) hfk hval
      rw [show List.range' 1 (2 - 1) = [1] from rfl]
      exact h
    · have h := intentosList_exito fi i [1, 2] [] 3 raw
        (by
          intro j hj
          simp only [List.mem_cons, List.not_mem_nil, or_false] at hj
          rcases hj with rfl | rfl
          · exact hfail 1 (by omega) (by omega)
          · exact hfail 2 (by omega) (by omega)) hfk hval
      rw [show List.range' 1 (3 - 1) = [1, 2] from rfl]
      exact h
  · intro i total hfail
    have heq := perLink_todo_falla O total i hfail
    refine ⟨heq, ?_, ?_⟩
    · intro p c hc
      rw [heq] at hc
      simp only [List.mem_append, List.mem_cons, List.mem_flatMap,
        List.not_mem_nil, or_false] at hc
      rcases hc with (hc | ⟨j, hj, hc⟩) | hc
      · simp at hc
      · exact wroteHtml_no_fallido (O.fetch i) i j p c hc
      · simp at hc
    · intro p t hc
      rw [heq] at hc
      simp only [List.mem_append, List.mem_cons, List.mem_flatMap,
        List.not_mem_nil, or_false] at hc
      rcases hc with (hc | ⟨j, hj, hc⟩) | hc
      · simp at hc
      · exact wroteCsv_no_fallido (O.fetch i) i j p t hc
      · simp at hc

/-- C3 witness: a two-link batch in which every fetch errors, run through
the theorem: the batch does not raise, both links are processed, and
each retry budget is respected. -/
theorem c3_unidad_reintentos_testigo :
    (descargarYGuardarCuadros oracBase ["a".toList, "b".toList]).2 = false ∧
    Ev.logInfo 2 2 ∈ (descargarYGuardarCuadros oracBase ["a".toList, "b".toList]).1 ∧
    cuentaFetches 1 (descargarYGuardarCuadros oracBase ["a".toList, "b".toList]).1 ≤ 3 := by
  have h := c3_unidad_reintentos oracBase ["a".toList, "b".toList]
    (fun p => rfl) (fun p => rfl)
  exact ⟨h.1, h.2.2.1 2 (by omega) (by decide), h.2.1 1⟩

set_option maxRecDepth 10000 in
/-- C8 counterexample: `os.makedirs` runs before the `try:` block of
`guardar_html_y_csv` and the batch loop has no handler, so with a
filesystem whose directory creation fails the exception escapes the batch
loop (the run aborts) and the second cuadro of the batch is never
processed — the claim that such an error is caught, logged and fatal for
that resource only is false. -/
theorem c8_contraejemplo :
    (descargarYGuardarCuadros c8Orac ["a".toList, "b".toList]).2 = true ∧
    Ev.logInfo 2 2 ∉ (descargarYGuardarCuadros c8Orac ["a".toList, "b".toList]).1 := by
  have hlimp : limpiarHtml paginaValida = paginaValida := by decide
  have hval : htmlEsValido (limpiarHtml paginaValida) = true := by
    rw [hlimp]; decide
  have hint : intentos (c8Orac.fetch 1) 1 =
      ([Ev.getAttempt 1 1], some (limpiarHtml paginaValida)) := by
    have h := intentosList_exito (c8Orac.fetch 1) 1 [] [2, 3] 1 paginaValida
      (by simp) rfl hval
    simpa [intentos] using h
  have hguardar : guardarHtmlYCsv c8Orac.fs c8Orac.parse c8Orac.parseHtml
      c8Orac.serialize c8Orac.readHtml2 c8Orac.readHtml1 (limpiarHtml paginaValida)
      (nombreCuadro c8Orac 1 (limpiarHtml paginaValida)) c8Orac.htmlDir c8Orac.csvDir =
      ([], true) := rfl
  have hper : perLink c8Orac 2 1 = ((Ev.logInfo 1 2 :: [Ev.getAttempt 1 1]) ++ [], true) := by
    simp only [perLink, hint, hguardar]
  have hrun : descargarYGuardarCuadros c8Orac ["a".toList, "b".toList] =
      ((Ev.logInfo 1 2 :: [Ev.getAttempt 1 1]) ++ [], true) := by
    unfold descargarYGuardarCuadros
    simp only [show (["a".toList, "b".toList] : List (List Char)).length = 2 from rfl,
      descargarAux, hper]
    exact if_pos trivial
  rw [hrun]
  exact ⟨rfl, by simp⟩

/-- C8 amended: only the table-processing/CSV phase is shielded by the
`try:` block — when every directory creation and every raw-HTML write
succeeds, no exception escapes `guardar_html_y_csv` whatever the CSV
writes do (a CSV failure is caught and logged for that resource only),
the batch never raises and every link is still processed; but a failure
to create an output directory or to write the raw HTML file escapes and
aborts the remaining batch, as the counterexample shows. -/
theorem c8_error_archivos_enmendado (O : Orac) (links : List (List Char))
    (hmk : ∀ p, O.fs.mkdirOk p = true)
    (hhtml : ∀ n, O.fs.writeOk (rutaArchivo O.htmlDir n (".html".toList)) = true) :
    (∀ (fs : FsOracle) (parse : List Char → Option ℚ)
       (parseHtml : List Char → HNode) (serialize : HNode → List Char)
       (r2 r1 : List Char → Option (List RawTable)) (html nombre hd cd : List Char),
       fs.mkdirOk hd = true → fs.mkdirOk cd = true →
       fs.writeOk (rutaArchivo hd nombre (".html".toList)) = true →
       (guardarHtmlYCsv fs parse parseHtml serialize r2 r1 html nombre hd cd).2 =
         false) ∧
    (descargarYGuardarCuadros O links).2 = false ∧
    (∀ i, 1 ≤ i → i ≤ links.length →
       Ev.logInfo i links.length ∈ (descargarYGuardarCuadros O links).1) := by
  refine ⟨?_, descargarAux_sin_lanzar O links.length hmk hhtml links 1, ?_⟩
  · intro fs parse parseHtml serialize r2 r1 html nombre hd cd h1 h2 h3
    exact guardar_sin_lanzar fs parse parseHtml serialize r2 r1 html nombre hd cd h1 h2 h3
  · intro i h1 h2
    exact descargarAux_logInfo O links.length hmk hhtml i links 1 h1 (by omega)

/-- C8 amended witness: a batch over a filesystem that refuses every CSV
write (but accepts directories and HTML files) still completes without
raising and processes both links. -/
theorem c8_error_archivos_enmendado_testigo :
    (descargarYGuardarCuadros
       { oracBase with
           fs := { mkdirOk := fun _ => true,
                   writeOk := fun p => !(empiezaCon ("csv".toList) p) } }
       ["a".toList, "b".toList]).2 = false ∧
    Ev.logInfo 2 2 ∈ (descargarYGuardarCuadros
       { oracBase with
           fs := { mkdirOk := fun _ => true,
                   writeOk := fun p => !(empiezaCon ("csv".toList) p) } }
       ["a".toList, "b".toList]).1 := by
  have h := c8_error_archivos_enmendado
    { oracBase with
        fs := { mkdirOk := fun _ => true,
                writeOk := fun p => !(empiezaCon ("csv".toList) p) } }
    ["a".toList, "b".toList] (fun p => rfl) (fun n => rfl)
  exact ⟨h.2.1, h.2.2 2 (by omega) (by decide)⟩

set_option maxRecDepth 10000 in
/-- C7 counterexample: the retry loop applies
`.replace("\xa0", " ").replace("Â", "")` to the decoder output before
persisting, so for a payload whose decoded text contains a non-breaking
space the raw artifact on disk is not byte-for-byte the decoder output:
the single raw file this batch writes differs from the decoded text. -/
theorem c7_contraejemplo :
    Ev.wroteHtml (rutaArchivo ("html".toList) ("cuadro_01".toList) (".html".toList))
        (limpiarHtml c7Decodificado) ∈
      (descargarYGuardarCuadros c7Orac ["a".toList]).1 ∧
    limpiarHtml c7Decodificado ≠ c7Decodificado ∧
    (∀ p c, Ev.wroteHtml p c ∈ (descargarYGuardarCuadros c7Orac ["a".toList]).1 →
       c ≠ c7Decodificado) := by
  have hlimp : limpiarHtml c7Decodificado = paginaValida ++ [' '] := by decide
  have hval : htmlEsValido (limpiarHtml c7Decodificado) = true := by
    rw [hlimp]; decide
  have hint : intentos (c7Orac.fetch 1) 1 =
      ([Ev.getAttempt 1 1], some (limpiarHtml c7Decodificado)) := by
    have h := intentosList_exito (c7Orac.fetch 1) 1 [] [2, 3] 1 c7Decodificado
      (by simp) rfl hval
    simpa [intentos] using h
  have hnom : nombreCuadro c7Orac 1 (limpiarHtml c7Decodificado) = "cuadro_01".toList := by
    decide
  have hguardar : guardarHtmlYCsv c7Orac.fs c7Orac.parse c7Orac.parseHtml
      c7Orac.serialize c7Orac.readHtml2 c7Orac.readHtml1 (limpiarHtml c7Decodificado)
      (nombreCuadro c7Orac 1 (limpiarHtml c7Decodificado)) c7Orac.htmlDir c7Orac.csvDir =
      ([Ev.mkdirEv ("html".toList), Ev.mkdirEv ("csv".toList),
        Ev.wroteHtml (rutaArchivo ("html".toList) ("cuadro_01".toList) (".html".toList))
          (limpiarHtml c7Decodificado),
        Ev.logErrorTabla ("cuadro_01".toList)], false) := by
    rw [hnom]
    rfl
  have hper : perLink c7Orac 1 1 =
      ((Ev.logInfo 1 1 :: [Ev.getAttempt 1 1]) ++
        [Ev.mkdirEv ("html".toList), Ev.mkdirEv ("csv".toList),
         Ev.wroteHtml (rutaArchivo ("html".toList) ("cuadro_01".toList) (".html".toList))
           (limpiarHtml c7Decodificado),
         Ev.logErrorTabla ("cuadro_01".toList)], false) := by
    simp only [perLink, hint, hguardar]
  have hrun : descargarYGuardarCuadros c7Orac ["a".toList] =
      (((Ev.logInfo 1 1 :: [Ev.getAttempt 1 1]) ++
        [Ev.mkdirEv ("html".toList), Ev.mkdirEv ("csv".toList),
         Ev.wroteHtml (rutaArchivo ("html".toList) ("cuadro_01".toList) (".html".toList))
           (limpiarHtml c7Decodificado),
         Ev.logErrorTabla ("cuadro_01".toList)]) ++ [], false) := by
    unfold descargarYGuardarCuadros
    simp only [show (["a".toList] : List (List Char)).length = 1 from rfl,
      descargarAux, hper]
    exact if_neg (by simp)
  have hneq : limpiarHtml c7Decodificado ≠ c7Decodificado := by
    rw [hlimp]
    decide
  refine ⟨?_, hneq, ?_⟩
  · rw [hrun]
    simp
  · intro p c hc
    obtain ⟨i, k, raw, hk, hf, he, hv⟩ :=
      descargarAux_wroteHtml c7Orac 1 p c ["a".toList] 1 (by simpa [descargarYGuardarCuadros] using hc)
    have hraw : raw = c7Decodificado := by
      injection hf with h2
      exact h2.symm
    rw [he, hraw]
    exact hneq

/-- C7 amended: persistence itself is byte-for-byte — every raw artifact
`guardar_html_y_csv` writes has exactly the html string it was handed, at
the derived path — but the pipeline hands it the decoded text only after
replacing U+00A0 with a space and deleting `'Â'`: every raw artifact a
batch writes equals `limpiarHtml` of the decoded payload of a successful,
structurally valid fetch, not necessarily the decoder output itself. -/
theorem c7_artefacto_crudo_enmendado (O : Orac) (total : Nat) :
    (∀ (fs : FsOracle) (parse : List Char → Option ℚ)
       (parseHtml : List Char → HNode) (serialize : HNode → List Char)
       (r2 r1 : List Char → Option (List RawTable)) (html nombre hd cd p c : List Char),
       Ev.wroteHtml p c ∈
         (guardarHtmlYCsv fs parse parseHtml serialize r2 r1 html nombre hd cd).1 →
       c = html ∧ p = rutaArchivo hd nombre (".html".toList)) ∧
    (∀ (ls : List (List Char)) (start : Nat) (p c : List Char),
       Ev.wroteHtml p c ∈ (descargarAux O total start ls).1 →
       ∃ i k raw, k ∈ [1, 2, 3] ∧ O.fetch i k = some raw ∧ c = limpiarHtml raw ∧
         htmlEsValido (limpiarHtml raw) = true) := by
  constructor
  · intro fs parse parseHtml serialize r2 r1 html nombre hd cd p c h
    exact guardar_contenido_html fs parse parseHtml serialize r2 r1
      html nombre hd cd p c h
  · intro ls start p c h
    exact descargarAux_wroteHtml O total p c ls start h

set_option maxRecDepth 10000 in
/-- C7 amended witness: the theorem applied to the concrete run of the
counterexample batch: the one artifact it writes is the cleaned decode of
the fetched payload. -/
theorem c7_artefacto_crudo_enmendado_testigo :
    ∃ i k raw, k ∈ [1, 2, 3] ∧ c7Orac.fetch i k = some raw ∧
      limpiarHtml c7Decodificado = limpiarHtml raw ∧
      htmlEsValido (limpiarHtml raw) = true := by
  have hlimp : limpiarHtml c7Decodificado = paginaValida ++ [' '] := by decide
  have hval : htmlEsValido (limpiarHtml c7Decodificado) = true := by
    rw [hlimp]; decide
  have hint : intentos (c7Orac.fetch 1) 1 =
      ([Ev.getAttempt 1 1], some (limpiarHtml c7Decodificado)) := by
    have h := intentosList_exito (c7Orac.fetch 1) 1 [] [2, 3] 1 c7Decodificado
      (by simp) rfl hval
    simpa [intentos] using h
  have hnom : nombreCuadro c7Orac 1 (limpiarHtml c7Decodificado) = "cuadro_01".toList := by
    decide
  have hmem : Ev.wroteHtml
      (rutaArchivo c7Orac.htmlDir (nombreCuadro c7Orac 1 (limpiarHtml c7Decodificado))
        (".html".toList)) (limpiarHtml c7Decodificado) ∈
      (descargarAux c7Orac 1 1 ["a".toList]).1 := by
    have hg := guardar_escribe_html c7Orac.fs c7Orac.parse c7Orac.parseHtml
      c7Orac.serialize c7Orac.readHtml2 c7Orac.readHtml1 (limpiarHtml c7Decodificado)
      (nombreCuadro c7Orac 1 (limpiarHtml c7Decodificado)) c7Orac.htmlDir c7Orac.csvDir
      rfl rfl rfl
    simp only [descargarAux, perLink, hint]
    split
    · exact List.mem_append_right _ hg
    · exact List.mem_append_left _ (List.mem_append_right _ hg)
  obtain ⟨i, k, raw, hk, hf, he, hv⟩ :=
    (c7_artefacto_crudo_enmendado c7Orac 1).2 ["a".toList] 1 _ _ hmem
  exact ⟨i, k, raw, hk, hf, he, hv⟩

/-- C5 counterexample: no boilerplate-row filter exists in
`guardar_html_y_csv` — with a parsed table whose only row has first
column `"Total"`, that row appears (first cell kept as text) in the grid
written to the CSV, so the claim that such rows are dropped is false. -/
theorem c5_contraejemplo :
    Ev.wroteCsv (rutaArchivo ("csv".toList) ("n".toList) (".csv".toList))
        [[Cell.texto ("Total".toList), Cell.falta]] ∈
      (guardarHtmlYCsv c5Orac.fs c5Orac.parse c5Orac.parseHtml c5Orac.serialize
         c5Orac.readHtml2 c5Orac.readHtml1 ("x".toList) ("n".toList)
         ("html".toList) ("csv".toList)).1 := by
  decide

/-- C5 amended: the normalized table keeps every row of the parsed table:
the persisted grid is exactly the positional per-cell coercion, so a row
whose first column is `"Total"` (or any other boilerplate keyword) is
present in the CSV with its first cell kept as text — no row is
dropped. -/
theorem c5_sin_filtrado_enmendado (fs : FsOracle) (parse : List Char → Option ℚ)
    (parseHtml : List Char → HNode) (serialize : HNode → List Char)
    (r2 r1 : List Char → Option (List RawTable)) (html nombre hd cd : List Char)
    (t : RawTable) (ts : List RawTable)
    (h1 : fs.mkdirOk hd = true) (h2 : fs.mkdirOk cd = true)
    (h3 : fs.writeOk (rutaArchivo hd nombre (".html".toList)) = true)
    (h4 : fs.writeOk (rutaArchivo cd nombre (".csv".toList)) = true)
    (hr : r2 (serialize (transformarNodo none (parseHtml html))) = some (t :: ts)) :
    Ev.wroteCsv (rutaArchivo cd nombre (".csv".toList)) (procesarTabla parse t) ∈
      (guardarHtmlYCsv fs parse parseHtml serialize r2 r1 html nombre hd cd).1 ∧
    (procesarTabla parse t).length = t.length ∧
    (∀ (i : Nat) (r : List (List Char)), t[i]? = some r →
       (procesarTabla parse t)[i]? = some (coerceRow parse r) ∧
       (coerceRow parse r).head? = r.head?.map Cell.texto) := by
  refine ⟨?_, ?_, ?_⟩
  · unfold guardarHtmlYCsv
    simp only [h1, h2, h3, h4, hr, Bool.true_eq_false, if_false]
    simp
  · unfold procesarTabla
    exact List.length_map _ _
  · intro i r hir
    constructor
    · unfold procesarTabla
      rw [List.getElem?_map, hir]
      rfl
    · cases r with
      | nil => rfl
      | cons c0 resto => rfl

/-- C5 amended witness: the theorem applied at the concrete one-row
`"Total"` table of the counterexample oracle. -/
theorem c5_sin_filtrado_enmendado_testigo :
    Ev.wroteCsv (rutaArchivo ("csv".toList) ("n".toList) (".csv".toList))
        (procesarTabla c5Orac.parse c5Tabla) ∈
      (guardarHtmlYCsv c5Orac.fs c5Orac.parse c5Orac.parseHtml c5Orac.serialize
         c5Orac.readHtml2 c5Orac.readHtml1 ("x".toList) ("n".toList)
         ("html".toList) ("csv".toList)).1 ∧
    (procesarTabla c5Orac.parse c5Tabla).length = c5Tabla.length := by
  have h := c5_sin_filtrado_enmendado c5Orac.fs c5Orac.parse c5Orac.parseHtml
    c5Orac.serialize c5Orac.readHtml2 c5Orac.readHtml1 ("x".toList) ("n".toList)
    ("html".toList) ("csv".toList) c5Tabla [] rfl rfl rfl rfl rfl
  exact ⟨h.1, h.2.1⟩
